import Mathlib

/-!
# Verification of the copernicus block-sync manager (net/syncmanager)

Shallow embedding of the sync manager from the Go source.  All mutable state
the event loop owns (`rejectedTxns`, `requestedTxns`, `requestedBlocks`,
`syncPeer`, `peerStates`, plus the peer-object fields the manager itself
reads and writes: last block height, last announced block, stalling-since)
is collected in `SMState`.  Everything the manager consults read-only during
one event (chain, mempool, UTXO view, peer attributes, the Process*
callbacks, the clock) is an `Env`.  Each Go handler becomes a function
`Env → ... → SMState → SMState × List Action` where `Action` records the
outbound effects (messages queued to peers, disconnects, ban score calls,
reply-channel signals, callback invocations).

Go maps keyed by `util.Hash` become `Finset Nat` (sets) or `Nat → Option`
functions (the hash→peer map); `peerStates` (keyed by peer pointer) becomes
an association list keyed by a numeric peer id.  `limitMap` evicts a
"random" entry in Go; here it deterministically evicts the minimum, which is
one faithful resolution of that nondeterminism (the code comment itself says
iteration order is unspecified and irrelevant).
-/

namespace SyncManager

abbrev Hash := Nat
abbrev PeerId := Nat
abbrev Err := Nat

/-- The all-zero hash `zeroHash` used as a getheaders stop hash. -/
def zeroHash : Hash := 0

/-- `MAX_BLOCKS_IN_TRANSIT_PER_PEER` from the source. -/
def MAX_BLOCKS_IN_TRANSIT_PER_PEER : Nat := 16

/-- `BLOCK_DOWNLOAD_WINDOW` from the source. -/
def BLOCK_DOWNLOAD_WINDOW : Int := 1024

/-- `MAX_UNCONNECTING_HEADERS` from the source. -/
def MAX_UNCONNECTING_HEADERS : Nat := 10

/-- `maxRejectedTxns` from the source. -/
def maxRejectedTxns : Nat := 1000

/-- Modelled from the spec: `wire.MaxInvPerMsg`, the wire-protocol cap on
inventory vectors per message.  The wire package is not under src/; the spec
uses it as `MAX_INV_PER_MSG` (request-set capacities, drain stop).  Its value
in the upstream wire protocol is 50000. -/
def maxInvPerMsg : Nat := 50000

/-- `maxRequestedTxns = wire.MaxInvPerMsg` from the source. -/
def maxRequestedTxns : Nat := maxInvPerMsg

/-- Modelled from the spec: `wire.MaxBlockHeadersPerMsg`; the spec gives
`MAX_BLOCK_HEADERS_PER_MSG = 2000`. -/
def maxBlockHeadersPerMsg : Nat := 2000

/-- `BLOCK_STALLING_TIMEOUT` (microseconds) from the source: `2 * 1000000`. -/
def BLOCK_STALLING_TIMEOUT : Int := 2 * 1000000

/-- Inventory vector types (`wire.InvTypeBlock`, `wire.InvTypeTx`, rest). -/
inductive InvType where
  | blockType
  | txType
  | otherType
deriving DecidableEq, Repr

/-- `wire.InvVect`. -/
structure InvVect where
  type : InvType
  hash : Hash
deriving DecidableEq, Repr

/-- A block header: its own hash and `HashPrevBlock`. -/
structure BlockHeader where
  hash : Hash
  hashPrevBlock : Hash
deriving DecidableEq, Repr

/-- `blockindex.BlockIndex`, restricted to the fields the sync manager
reads: block hash, height, accumulated chain work, whether block data is
stored (`HasData`), whether the index is valid to `BlockValidTree`
(`IsValid(BlockValidTree)`), and the parent link (`Prev`). -/
inductive BlockIndex where
  | node (hash : Hash) (height : Int) (chainWork : Nat)
      (hasData : Bool) (validTree : Bool) (prev : Option BlockIndex)

namespace BlockIndex

def hash : BlockIndex → Hash
  | node h _ _ _ _ _ => h

def height : BlockIndex → Int
  | node _ ht _ _ _ _ => ht

def chainWork : BlockIndex → Nat
  | node _ _ w _ _ _ => w

def hasData : BlockIndex → Bool
  | node _ _ _ d _ _ => d

def validTree : BlockIndex → Bool
  | node _ _ _ _ v _ => v

def prev : BlockIndex → Option BlockIndex
  | node _ _ _ _ _ p => p

/-- `BlockIndex.GetAncestor`: walk `Prev` links looking for the node at the
given height (nil when the height never occurs on the ancestor path). -/
def getAncestor : BlockIndex → Int → Option BlockIndex
  | node h ht w d v p, target =>
    if ht = target then some (node h ht w d v p)
    else match p with
      | none => none
      | some pb => getAncestor pb target

end BlockIndex

/-- `peerSyncState` from the source. -/
structure PeerSyncState where
  syncCandidate : Bool
  requestQueue : List InvVect
  requestedTxns : Finset Hash
  requestedBlocks : Finset Hash
  unconnectingHeaders : Nat
deriving DecidableEq

/-- Fresh per-peer state as built in `handleNewPeerMsg`. -/
def PeerSyncState.mkNew (cand : Bool) : PeerSyncState :=
  { syncCandidate := cand
    requestQueue := []
    requestedTxns := ∅
    requestedBlocks := ∅
    unconnectingHeaders := 0 }

/-! Association-list primitives standing in for the Go map
`map[*peer.Peer]*peerSyncState` (key = peer identity; Go guarantees one
entry per live peer pointer).  `insertA` overwrites, `eraseA` deletes,
`updateA` mutates-in-place through the pointer. -/

def lookupA {α : Type} : List (PeerId × α) → PeerId → Option α
  | [], _ => none
  | a :: t, p => if a.1 = p then some a.2 else lookupA t p

def eraseA {α : Type} : List (PeerId × α) → PeerId → List (PeerId × α)
  | [], _ => []
  | a :: t, p => if a.1 = p then eraseA t p else a :: eraseA t p

def insertA {α : Type} (l : List (PeerId × α)) (p : PeerId) (v : α) : List (PeerId × α) :=
  (p, v) :: eraseA l p

def updateA {α : Type} : List (PeerId × α) → PeerId → (α → α) → List (PeerId × α)
  | [], _, _ => []
  | a :: t, p, f => (if a.1 = p then (a.1, f a.2) else a) :: updateA t p f

/-- The sync manager's mutable state (the fields of `SyncManager` the
message loop owns), together with the peer-object fields the manager itself
reads and writes across events (`LastBlock`, `LastAnnouncedBlock`,
`StallingSince`). -/
structure SMState where
  rejectedTxns : Finset Hash
  requestedTxns : Finset Hash
  requestedBlocks : Hash → Option PeerId
  syncPeer : Option PeerId
  peerStates : List (PeerId × PeerSyncState)
  lastBlock : PeerId → Int
  lastAnnounced : PeerId → Option Hash
  stallingSince : PeerId → Int

/-- Outbound effects of one event: messages queued on peers, disconnects,
ban-score reports, reply-channel signals, and callback invocations. -/
inductive Action where
  | pushGetHeaders (p : PeerId) (anchor : Hash) (stop : Hash)
  | queueGetData (p : PeerId) (invs : List InvVect)
  | queueInv (p : PeerId) (txHashes : List Hash)
  | pushReject (p : PeerId) (hash : Hash)
  | disconnect (p : PeerId)
  | addBanScore (p : PeerId) (delta : Nat) (persistent : Nat) (reason : String)
  | requestMemPool (p : PeerId)
  | announceNewTransactions (txs : List Hash)
  | updatePeerHeights (p : PeerId)
  | checkRevertToInv (p : PeerId) (h : Hash)
  | addKnownInventory (p : PeerId) (iv : InvVect)
  | updateLastAnnouncedBlock (p : PeerId) (h : Hash)
  | onMemPool (p : PeerId)
  | onGetBlocks (p : PeerId)
  | signalReply
  | callProcessTransaction (h : Hash)
  | callProcessBlock (h : Hash)
  | callProcessBlockHeader
  | fatalError
deriving DecidableEq, Repr

/-- The read-only world during one event: chain view, mempool/UTXO view,
immutable peer attributes, clock, and the injected callbacks.  The
`process*` fields model the `ProcessTransactionCallBack`,
`ProcessBlockCallBack` and `ProcessBlockHeadCallBack` functions (their
results for each input), `isRejectErr` models `errcode.IsRejectCode`. -/
structure Env where
  regtest : Bool
  ibd : Bool
  chainIsCurrent : Bool
  tip : BlockIndex
  indexBestHeader : BlockIndex
  minChainWork : Nat
  canDirectFetch : Bool
  findBlockIndex : Hash → Option BlockIndex
  findHashInActive : Hash → Option BlockIndex
  findFork : Hash → Option BlockIndex
  containsActive : Hash → Bool
  mempoolHas : Hash → Bool
  orphanHas : Hash → Bool
  utxoHas : Hash → Nat → Bool
  localhostPeer : PeerId → Bool
  nodeNetworkPeer : PeerId → Bool
  verAck : PeerId → Bool
  whitelisted : PeerId → Bool
  nowMicros : Int
  processTransaction : Hash → Finset Hash → PeerId →
      List Hash × List Hash × List Hash × Option Err
  processBlock : Hash → Bool → Option Err
  processBlockHeader : List BlockHeader → Except Err BlockIndex
  isRejectErr : Err → Bool

/-- `isSyncCandidate`: regression test admits only localhost peers,
otherwise the peer must advertise `SFNodeNetwork`. -/
def isSyncCandidate (env : Env) (p : PeerId) : Bool :=
  if env.regtest then env.localhostPeer p else env.nodeNetworkPeer p

/-- `current()`: the chain believes it is current and, when a sync peer is
set, the tip is not below that peer's last known block. -/
def currentFn (env : Env) (s : SMState) : Bool :=
  if ¬ env.chainIsCurrent then false
  else match s.syncPeer with
    | none => true
    | some sp => decide (env.tip.height ≥ s.lastBlock sp)

/-- `haveInventory`: block inventory is known iff the chain index has the
block with data; tx inventory iff mempool, one of the first two UTXO
outputs, or the orphan pool knows it; other types are claimed known. -/
def haveInventory (env : Env) (iv : InvVect) : Bool :=
  match iv.type with
  | InvType.blockType =>
    match env.findBlockIndex iv.hash with
    | none => false
    | some bi => bi.hasData
  | InvType.txType =>
    env.mempoolHas iv.hash || env.utxoHas iv.hash 0 || env.utxoHas iv.hash 1
      || env.orphanHas iv.hash
  | InvType.otherType => true

/-- `alreadyHave`: previously rejected, or tx inventory already known. -/
def alreadyHave (env : Env) (s : SMState) (txHash : Hash) : Bool :=
  if txHash ∈ s.rejectedTxns then true
  else haveInventory env ⟨InvType.txType, txHash⟩

/-- `limitMap`: when one more entry would overflow the limit, evict one
entry.  Go deletes whichever key its map iteration yields first; we evict
the minimum (a deterministic instance of that arbitrary choice). -/
def limitMap (m : Finset Hash) (limit : Nat) : Finset Hash :=
  if m.card + 1 > limit then
    match m.min with
    | some x => m.erase x
    | none => m
  else m

/-- The locator anchor used throughout the source: start at the block
preceding the current best header when there is one. -/
def prevOrSelfHash (bi : BlockIndex) : Hash :=
  match bi.prev with
  | some pb => pb.hash
  | none => bi.hash

/-- `updateTxRequestState`: drop the tx from both request maps, record the
reject hashes, bound the rejection cache (one `limitMap` call). -/
def updateTxRequestState (s : SMState) (p : PeerId) (txHash : Hash)
    (rejectTxs : List Hash) : SMState :=
  { s with
    peerStates := updateA s.peerStates p
      (fun ps => { ps with requestedTxns := ps.requestedTxns.erase txHash })
    requestedTxns := s.requestedTxns.erase txHash
    rejectedTxns :=
      limitMap (rejectTxs.foldl (fun m h => insert h m) s.rejectedTxns) maxRejectedTxns }

/-- `fetchMissingTx`: advertise the missing parents back to the peer. -/
def fetchMissingTx (missTxs : List Hash) (p : PeerId) : List Action :=
  if missTxs.length > 0 then [Action.queueInv p missTxs] else []

/-- `handleTxMsg`. -/
def handleTxMsg (env : Env) (txHash : Hash) (p : PeerId) (s : SMState) :
    SMState × List Action :=
  match lookupA s.peerStates p with
  | none => (s, [])
  | some _ =>
    if alreadyHave env s txHash then (s, [])
    else
      let r := env.processTransaction txHash s.rejectedTxns p
      let acceptTxs := r.1
      let missTxs := r.2.1
      let rejectTxs := r.2.2.1
      let errv := r.2.2.2
      let s1 := updateTxRequestState s p txHash rejectTxs
      let acts := [Action.callProcessTransaction txHash] ++ fetchMissingTx missTxs p
      match errv with
      | some e =>
        if env.isRejectErr e then (s1, acts ++ [Action.pushReject p txHash])
        else (s1, acts)
      | none =>
        if acceptTxs.all env.mempoolHas then
          (s1, acts ++ [Action.announceNewTransactions acceptTxs])
        else
          (s1, acts ++ [Action.fatalError])

/-- The candidate scan inside `startSync`, generalized over the portion of
the peer list left to visit and the best peer found so far. -/
def startSyncScanAux (env : Env) (s : SMState) :
    List (PeerId × PeerSyncState) → Option PeerId → Option PeerId
  | [], best => best
  | q :: rest, best =>
    if ¬ q.2.syncCandidate then startSyncScanAux env s rest best
    else if s.lastBlock q.1 < env.tip.height then startSyncScanAux env s rest best
    else startSyncScanAux env s rest (some q.1)

/-- The candidate scan inside `startSync`.  Go ranges over the map (keeping
the last surviving candidate); we fold over the association list, one
faithful determinization of Go's unspecified iteration order. -/
def startSyncScan (env : Env) (s : SMState) : Option PeerId :=
  startSyncScanAux env s s.peerStates none

/-- `startSync`. -/
def startSync (env : Env) (s : SMState) : SMState × List Action :=
  match s.syncPeer with
  | some _ => (s, [])
  | none =>
    match startSyncScan env s with
    | some bestPeer =>
      let acts := [Action.pushGetHeaders bestPeer (prevOrSelfHash env.indexBestHeader) zeroHash]
      let s' := { s with syncPeer := some bestPeer }
      if currentFn env s' then (s', acts ++ [Action.requestMemPool bestPeer])
      else (s', acts)
    | none => (s, [])

/-- `clearSyncPeerState`: forget the peer and purge its hashes from the
global request indices. -/
def clearSyncPeerState (s : SMState) (p : PeerId) : SMState :=
  match lookupA s.peerStates p with
  | none => s
  | some st =>
    { s with
      peerStates := eraseA s.peerStates p
      requestedTxns := s.requestedTxns \ st.requestedTxns
      requestedBlocks := fun h => if h ∈ st.requestedBlocks then none else s.requestedBlocks h }

/-- `handleDonePeerMsg`. -/
def handleDonePeerMsg (env : Env) (p : PeerId) (s : SMState) : SMState × List Action :=
  let s1 := clearSyncPeerState s p
  if s1.syncPeer = some p then startSync env { s1 with syncPeer := none }
  else (s1, [])

/-- `handleMinedBlockMsg`: run `ProcessBlock(block, true)`; the deferred
reply-channel send fires on both outcomes. -/
def handleMinedBlockMsg (env : Env) (h : Hash) (s : SMState) : SMState × List Action :=
  match env.processBlock h true with
  | some _ => (s, [Action.callProcessBlock h, Action.signalReply])
  | none => (s, [Action.callProcessBlock h, Action.signalReply])

/-- `lastAccouncedBlock` (source spelling): the chain-index entry of the
peer's last announced block, if both exist. -/
def lastAccouncedBlock (env : Env) (s : SMState) (p : PeerId) : Option BlockIndex :=
  match s.lastAnnounced p with
  | none => none
  | some h => env.findBlockIndex h

/-- `syncPoints`: walk start and peer best-known block, or a getheaders
solicitation when the peer's best block is unknown. -/
def syncPoints (env : Env) (s : SMState) (p : PeerId) :
    Option (BlockIndex × BlockIndex) × List Action :=
  match lastAccouncedBlock env s p with
  | none =>
    (none, [Action.pushGetHeaders p (prevOrSelfHash env.indexBestHeader) zeroHash])
  | some bestKnown =>
    if env.ibd then
      if env.tip.height > bestKnown.height ∨ bestKnown.chainWork < env.tip.chainWork then
        (none, [])
      else (some (env.tip, bestKnown), [])
    else
      match env.findFork bestKnown.hash with
      | none => (none, [])
      | some fk => (some (fk, bestKnown), [])

/-- One slab of `vToFetch`: the Go code pushes the walk target and then `n`
predecessors to the front, producing ancestors in ascending order. -/
def slabList : BlockIndex → Nat → List BlockIndex
  | b, 0 => [b]
  | b, Nat.succ n =>
    match b.prev with
    | some pb => slabList pb n ++ [b]
    | none => [b]

/-- Accumulator threading the fields the `fetchHeaderBlocks` walk mutates. -/
structure FetchAcc where
  requestedBlocks : Hash → Option PeerId
  peerBlocks : Finset Hash
  stallingSince : PeerId → Int
  waitingfor : Option PeerId
  gdmsg : List InvVect

/-- The inner loop of `fetchHeaderBlocks` over one slab; the Bool is the
labelled `break out`. -/
def processSlab (env : Env) (p : PeerId) (nWindowEnd : Int) :
    List BlockIndex → FetchAcc → FetchAcc × Bool
  | [], acc => (acc, false)
  | pindex :: rest, acc =>
    if ¬ pindex.validTree then (acc, true)
    else if pindex.hasData then processSlab env p nWindowEnd rest acc
    else
      match acc.requestedBlocks pindex.hash with
      | some waitpeer =>
        let acc' := { acc with waitingfor :=
          match acc.waitingfor with
          | none => some waitpeer
          | some w => some w }
        processSlab env p nWindowEnd rest acc'
      | none =>
        if pindex.height > nWindowEnd then
          let acc' :=
            match acc.waitingfor with
            | some w =>
              if acc.gdmsg.length = 0 ∧ w ≠ p ∧ acc.peerBlocks.card = 0 ∧
                  acc.stallingSince w = 0 then
                { acc with stallingSince :=
                    fun q => if q = w then env.nowMicros else acc.stallingSince q }
              else acc
            | none => acc
          (acc', true)
        else
          let acc' := { acc with
            requestedBlocks := fun h => if h = pindex.hash then some p else acc.requestedBlocks h
            peerBlocks := insert pindex.hash acc.peerBlocks
            gdmsg := acc.gdmsg ++ [⟨InvType.blockType, pindex.hash⟩] }
          if acc'.peerBlocks.card = MAX_BLOCKS_IN_TRANSIT_PER_PEER then (acc', true)
          else processSlab env p nWindowEnd rest acc'

/-- The outer slab loop of `fetchHeaderBlocks`, fuelled.  `getAncestor`
returns the node at exactly the requested height, so a fuel of
`nMaxHeight - start` suffices for every chain the loop can traverse. -/
def fetchLoop (env : Env) (p : PeerId) (bestKnown : BlockIndex)
    (nMaxHeight nWindowEnd : Int) :
    Nat → Int → FetchAcc → FetchAcc
  | 0, _, acc => acc
  | Nat.succ fuel, walkHeight, acc =>
    if walkHeight < nMaxHeight then
      let nToFetch := min (nMaxHeight - walkHeight) 128
      match bestKnown.getAncestor (walkHeight + nToFetch) with
      | none => acc
      | some walkNext =>
        let slab := slabList walkNext (nToFetch - 1).toNat
        let r := processSlab env p nWindowEnd slab acc
        if r.2 then r.1
        else fetchLoop env p bestKnown nMaxHeight nWindowEnd fuel walkNext.height r.1
    else acc

/-- `fetchHeaderBlocks`: the parallel block-download scheduler. -/
def fetchHeaderBlocks (env : Env) (p : PeerId) (s : SMState) : SMState × List Action :=
  if ¬ isSyncCandidate env p then (s, [])
  else if ¬ env.verAck p then (s, [])
  else
    match lookupA s.peerStates p with
    | none => (s, [])
    | some peerState =>
      if peerState.requestedBlocks.card = MAX_BLOCKS_IN_TRANSIT_PER_PEER then (s, [])
      else if env.indexBestHeader.chainWork < env.minChainWork then (s, [])
      else
        match syncPoints env s p with
        | (none, acts) => (s, acts)
        | (some (pindexWalk, bestKnown), acts) =>
          if bestKnown.chainWork < env.minChainWork then (s, acts)
          else if bestKnown.chainWork < env.tip.chainWork then (s, acts)
          else
            let nWindowEnd := pindexWalk.height + BLOCK_DOWNLOAD_WINDOW
            let nMaxHeight := min bestKnown.height (nWindowEnd + 1)
            let acc0 : FetchAcc :=
              { requestedBlocks := s.requestedBlocks
                peerBlocks := peerState.requestedBlocks
                stallingSince := s.stallingSince
                waitingfor := none
                gdmsg := [] }
            let fuel := (nMaxHeight - pindexWalk.height).toNat
            let acc := fetchLoop env p bestKnown nMaxHeight nWindowEnd fuel pindexWalk.height acc0
            let s' := { s with
              requestedBlocks := acc.requestedBlocks
              stallingSince := acc.stallingSince
              peerStates := updateA s.peerStates p
                (fun ps => { ps with requestedBlocks := acc.peerBlocks }) }
            (s', acts ++ (if acc.gdmsg.length > 0 then [Action.queueGetData p acc.gdmsg] else []))

/-- `handleNewPeerMsg`. -/
def handleNewPeerMsg (env : Env) (p : PeerId) (s : SMState) : SMState × List Action :=
  let cand := isSyncCandidate env p
  let s1 := { s with peerStates := insertA s.peerStates p (PeerSyncState.mkNew cand) }
  let acts0 :=
    if ¬ env.ibd ∧ env.verAck p then
      [Action.pushGetHeaders p (prevOrSelfHash env.indexBestHeader) zeroHash]
    else []
  if cand ∧ s1.syncPeer = none then
    let r := startSync env s1
    (r.1, acts0 ++ r.2)
  else if cand ∧ currentFn env s1 = true ∧
      (match s1.syncPeer with
       | some sp => decide (s1.lastBlock p > s1.lastBlock sp)
       | none => false) = true then
    let r := startSync env { s1 with syncPeer := none }
    (r.1, acts0 ++ r.2)
  else
    let r := fetchHeaderBlocks env p s1
    (r.1, acts0 ++ r.2)

/-- `fetchHeadersToConnect`: the unconnecting-headers path of the header
pipeline. -/
def fetchHeadersToConnect (env : Env) (p : PeerId) (s : SMState) : SMState × List Action :=
  let s0 := if env.ibd ∧ s.syncPeer = none then { s with syncPeer := some p } else s
  if env.ibd ∧ s0.syncPeer ≠ some p then
    fetchHeaderBlocks env p s0
  else
    let uc := (match lookupA s0.peerStates p with
      | some ps => ps.unconnectingHeaders
      | none => 0) + 1
    let s1 := { s0 with
      peerStates := updateA s0.peerStates p
        (fun ps => { ps with unconnectingHeaders := ps.unconnectingHeaders + 1 }) }
    let acts := [Action.pushGetHeaders p env.indexBestHeader.hash zeroHash]
    if uc % MAX_UNCONNECTING_HEADERS = 0 then
      (s1, acts ++ [Action.addBanScore p 20 0 "too-many-unconnected-headers"])
    else (s1, acts)

/-- Modelled from the spec: `wire.MsgHeaders.IsContinuousHeaders` (wire
package not under src/): each header's `prev_hash` equals the previous
header's hash. -/
def isContinuousHeaders : List BlockHeader → Bool
  | [] => true
  | [_] => true
  | a :: b :: rest => (b.hashPrevBlock = a.hash) && isContinuousHeaders (b :: rest)

/-- `updatePeerState` (headers variant): record known inventory, update the
peer's last announced block, and, when current, its height. -/
def updatePeerState (env : Env) (headers : List BlockHeader) (p : PeerId) (s : SMState) :
    SMState × Hash × List Action :=
  let known := headers.map (fun h => Action.addKnownInventory p ⟨InvType.blockType, h.hash⟩)
  let peerTip := ((headers.getLast?).map BlockHeader.hash).getD zeroHash
  let s1 := { s with lastAnnounced := fun q => if q = p then some peerTip else s.lastAnnounced q }
  let acts := known ++ [Action.updateLastAnnouncedBlock p peerTip]
  if currentFn env s1 then
    match env.findHashInActive peerTip with
    | some bi =>
      ({ s1 with lastBlock := fun q => if q = p then bi.height else s1.lastBlock q }, peerTip, acts)
    | none => (s1, peerTip, acts)
  else (s1, peerTip, acts)

/-- The walk of `blocksToFetch`: collect (front-pushed) the missing,
not-in-flight blocks back from `pindexLast` until the active chain is hit,
the window fills, or the ancestry runs out (`Contains(nil)` is false, so
running out reports a large reorg). -/
def blocksToFetchNode (env : Env) (rb : Hash → Option PeerId) :
    BlockIndex → List BlockIndex → List BlockIndex × Bool
  | BlockIndex.node h ht w d v pr, acc =>
    if ¬ env.containsActive h ∧ acc.length ≤ MAX_BLOCKS_IN_TRANSIT_PER_PEER then
      let b := BlockIndex.node h ht w d v pr
      let acc' := if ¬ b.hasData ∧ rb b.hash = none then b :: acc else acc
      match pr with
      | none => (acc', true)
      | some pb => blocksToFetchNode env rb pb acc'
    else (acc, ¬ env.containsActive h)

/-- The `blocksToFetch` walk, entry point (`Contains(nil)` is false, so a
walk that exhausts the ancestry reports a large reorg). -/
def blocksToFetchLoop (env : Env) (rb : Hash → Option PeerId) :
    Option BlockIndex → List BlockIndex → List BlockIndex × Bool
  | none, acc => (acc, true)
  | some b, acc => blocksToFetchNode env rb b acc

/-- The getdata loop of `fetchBlocks`. -/
def fetchBlocksLoop (p : PeerId) :
    List BlockIndex → (Hash → Option PeerId) → Finset Hash → List InvVect →
    (Hash → Option PeerId) × Finset Hash × List InvVect
  | [], rb, pb, gd => (rb, pb, gd)
  | b :: rest, rb, pb, gd =>
    if pb.card ≥ MAX_BLOCKS_IN_TRANSIT_PER_PEER then (rb, pb, gd)
    else
      fetchBlocksLoop p rest
        (fun h => if h = b.hash then some p else rb h)
        (insert b.hash pb)
        (gd ++ [⟨InvType.blockType, b.hash⟩])

/-- `fetchBlocks`: direct fetch after header validation. -/
def fetchBlocks (_env : Env) (p : PeerId) (vToFetch : List BlockIndex) (s : SMState) :
    SMState × List Action :=
  match lookupA s.peerStates p with
  | none => (s, [])
  | some ps =>
    let r := fetchBlocksLoop p vToFetch s.requestedBlocks ps.requestedBlocks []
    let s' := { s with
      requestedBlocks := r.1
      peerStates := updateA s.peerStates p (fun q => { q with requestedBlocks := r.2.1 }) }
    (s', if r.2.2.length > 0 then [Action.queueGetData p r.2.2] else [])

/-- `handleHeadersMsg`. -/
def handleHeadersMsg (env : Env) (headers : List BlockHeader) (p : PeerId) (s : SMState) :
    SMState × List Action :=
  match lookupA s.peerStates p with
  | none => (s, [])
  | some _ =>
    match headers.head? with
    | none => fetchHeaderBlocks env p s
    | some h0 =>
      if (env.findBlockIndex h0.hashPrevBlock).isNone then
        fetchHeadersToConnect env p s
      else if ¬ isContinuousHeaders headers then (s, [Action.disconnect p])
      else
        let r0 := updatePeerState env headers p s
        let s1 := r0.1
        let peerTip := r0.2.1
        let acts1 := r0.2.2 ++ [Action.callProcessBlockHeader]
        match env.processBlockHeader headers with
        | Except.error _ => (s1, acts1)
        | Except.ok pindexLast =>
          let s2 := { s1 with
            peerStates := updateA s1.peerStates p
              (fun ps => if ps.unconnectingHeaders > 0 then { ps with unconnectingHeaders := 0 } else ps) }
          let acts2 :=
            if headers.length = maxBlockHeadersPerMsg ∧ s2.syncPeer = some p then
              match env.findBlockIndex peerTip with
              | some blkIndex => [Action.pushGetHeaders p blkIndex.hash zeroHash]
              | none => []
            else []
          if ¬ pindexLast.validTree then (s2, acts1 ++ acts2)
          else if pindexLast.chainWork < env.tip.chainWork then (s2, acts1 ++ acts2)
          else if env.canDirectFetch then
            let r1 := blocksToFetchLoop env s2.requestedBlocks (some pindexLast) []
            if r1.2 then
              let r2 := fetchHeaderBlocks env p s2
              (r2.1, acts1 ++ acts2 ++ r2.2)
            else
              let r2 := fetchBlocks env p r1.1 s2
              (r2.1, acts1 ++ acts2 ++ r2.2)
          else if s2.peerStates.length ≤ 2 then
            let r2 := fetchHeaderBlocks env p s2
            (r2.1, acts1 ++ acts2 ++ r2.2)
          else (s2, acts1 ++ acts2)

/-- `handleBlockMsg`. -/
def handleBlockMsg (env : Env) (blockHash : Hash) (p : PeerId) (s : SMState) :
    SMState × List Action :=
  match lookupA s.peerStates p with
  | none => (s, [])
  | some state =>
    if blockHash ∉ state.requestedBlocks ∧ ¬ env.regtest then
      (s, [Action.disconnect p])
    else
      let fromWhitelist := env.whitelisted p && !env.ibd
      let requested := (s.requestedBlocks blockHash).isSome
      let s1 := { s with
        peerStates := updateA s.peerStates p
          (fun ps => { ps with requestedBlocks := ps.requestedBlocks.erase blockHash })
        requestedBlocks := fun h => if h = blockHash then none else s.requestedBlocks h
        stallingSince := fun q => if q = p then 0 else s.stallingSince q }
      let acts0 := [Action.callProcessBlock blockHash]
      match env.processBlock blockHash (requested || fromWhitelist) with
      | some e =>
        let actsE := if env.isRejectErr e then acts0 ++ [Action.pushReject p blockHash] else acts0
        if (match lookupA s1.peerStates p with
            | some ps => decide (ps.requestedBlocks.card = 0)
            | none => false) = true then
          let r := fetchHeaderBlocks env p s1
          (r.1, actsE ++ r.2)
        else (s1, actsE)
      | none =>
        let heightUpdate := env.tip.height
        let s2 := { s1 with rejectedTxns := ∅ }
        let s3u :=
          if heightUpdate ≠ 0 then
            let s3 := { s2 with lastBlock := fun q => if q = p then heightUpdate else s2.lastBlock q }
            if currentFn env s3 = true ∧ s3.syncPeer = some p then
              (s3, [Action.updatePeerHeights p, Action.requestMemPool p])
            else (s3, ([] : List Action))
          else (s2, [])
        let r := fetchHeaderBlocks env p s3u.1
        (r.1, acts0 ++ s3u.2 ++ r.2)

/-- The enqueue phase of `handleInvMsg` (first for-loop): returns the items
appended to the request queue and the known-inventory actions.  Go's
`haveInventory` can return an error in principle; the source implementation
always returns a nil error, so the error branch is dead. -/
def invEnqueue (env : Env) (rejected : Finset Hash) (p : PeerId)
    (invVects : List InvVect) : List InvVect × List Action :=
  invVects.foldl
    (fun (acc : List InvVect × List Action) iv =>
      match iv.type with
      | InvType.otherType => acc
      | _ =>
        let acts := acc.2 ++ [Action.addKnownInventory p iv]
        if ¬ haveInventory env iv then
          if iv.type = InvType.txType ∧ iv.hash ∈ rejected then (acc.1, acts)
          else (acc.1 ++ [iv], acts)
        else (acc.1, acts))
    ([], [])

/-- Accumulator of the `handleInvMsg` drain loop. -/
structure DrainAcc where
  requestedTxns : Finset Hash
  peerTxns : Finset Hash
  gdmsg : List InvVect
  numRequested : Nat
  acts : List Action

/-- The drain loop of `handleInvMsg`: pop the queue, push getheaders for
unrequested blocks, getdata for unrequested txs, stop at the per-message
cap; returns the remaining queue. -/
def drainLoop (env : Env) (rb : Hash → Option PeerId) (p : PeerId) :
    List InvVect → DrainAcc → List InvVect × DrainAcc
  | [], acc => ([], acc)
  | iv :: rest, acc =>
    let acc' :=
      match iv.type with
      | InvType.blockType =>
        if (rb iv.hash).isNone then
          { acc with acts := acc.acts ++ [Action.pushGetHeaders p env.indexBestHeader.hash iv.hash] }
        else acc
      | InvType.txType =>
        if iv.hash ∉ acc.requestedTxns then
          { acc with
            requestedTxns := limitMap (insert iv.hash acc.requestedTxns) maxRequestedTxns
            peerTxns := insert iv.hash acc.peerTxns
            gdmsg := acc.gdmsg ++ [iv]
            numRequested := acc.numRequested + 1 }
        else acc
      | InvType.otherType => acc
    if acc'.numRequested ≥ maxInvPerMsg then (rest, acc')
    else drainLoop env rb p rest acc'

/-- `handleInvMsg`. -/
def handleInvMsg (env : Env) (invVects : List InvVect) (p : PeerId) (s : SMState) :
    SMState × List Action :=
  match lookupA s.peerStates p with
  | none => (s, [])
  | some state =>
    let lastBlockIv := invVects.reverse.find? (fun iv => iv.type = InvType.blockType)
    let acts0 := match lastBlockIv with
      | some iv => [Action.checkRevertToInv p iv.hash]
      | none => []
    let s0 :=
      match lastBlockIv with
      | some iv =>
        let s0a :=
          if s.syncPeer ≠ some p ∨ currentFn env s = true then
            { s with lastAnnounced := fun q => if q = p then some iv.hash else s.lastAnnounced q }
          else s
        if currentFn env s0a then
          match env.findHashInActive iv.hash with
          | some bi =>
            { s0a with lastBlock := fun q => if q = p then bi.height else s0a.lastBlock q }
          | none => s0a
        else s0a
      | none => s
    let enq := invEnqueue env s0.rejectedTxns p invVects
    let queue := state.requestQueue ++ enq.1
    let acc0 : DrainAcc :=
      { requestedTxns := s0.requestedTxns
        peerTxns := state.requestedTxns
        gdmsg := []
        numRequested := 0
        acts := [] }
    let dr := drainLoop env s0.requestedBlocks p queue acc0
    let s1 := { s0 with
      requestedTxns := dr.2.requestedTxns
      peerStates := updateA s0.peerStates p
        (fun ps => { ps with requestQueue := dr.1, requestedTxns := dr.2.peerTxns }) }
    let actsGd := if dr.2.gdmsg.length > 0 then [Action.queueGetData p dr.2.gdmsg] else []
    (s1, acts0 ++ enq.2 ++ dr.2.acts ++ actsGd)

/-- One peer's visit in `scanToFetchHeaderBlocks`. -/
def scanStep (env : Env) (sa : SMState × List Action) (p : PeerId) : SMState × List Action :=
  match lookupA sa.1.peerStates p with
  | none => sa
  | some st =>
    if ¬ st.syncCandidate then sa
    else
      let stallsince := sa.1.stallingSince p
      if stallsince ≠ 0 ∧ stallsince < env.nowMicros - BLOCK_STALLING_TIMEOUT then
        (sa.1, sa.2 ++ [Action.disconnect p])
      else if st.requestedBlocks.card < MAX_BLOCKS_IN_TRANSIT_PER_PEER then
        let r := fetchHeaderBlocks env p sa.1
        (r.1, sa.2 ++ r.2)
      else sa

/-- `scanToFetchHeaderBlocks` (the `FetchTick` body): visit every peer
state (values read live through the map, as Go's range does over
pointers). -/
def scanToFetchHeaderBlocks (env : Env) (s : SMState) : SMState × List Action :=
  (s.peerStates.map Prod.fst).foldl (scanStep env) (s, [])

/-- The tagged messages of the event loop (plus the fetch ticker). -/
inductive Msg where
  | newPeer (p : PeerId)
  | txm (h : Hash) (p : PeerId)
  | blockm (h : Hash) (p : PeerId)
  | invm (invVects : List InvVect) (p : PeerId)
  | headersm (headers : List BlockHeader) (p : PeerId)
  | mempoolm (p : PeerId)
  | getBlocksm (p : PeerId)
  | ping (p : PeerId)
  | donePeer (p : PeerId)
  | getSyncPeer
  | isCurrentm
  | pausem
  | minedBlock (h : Hash)
  | fetchTick
deriving DecidableEq, Repr

/-- One iteration of `messagesHandler`: dispatch the event and emit the
reply-channel signals the loop performs after each handler.  `pingMsg` has
no case in the source's type switch: it falls through to the default
branch, which only logs — no handler runs and no reply is signalled. -/
def messageStep (env : Env) (s : SMState) : Msg → SMState × List Action
  | Msg.fetchTick => scanToFetchHeaderBlocks env s
  | Msg.newPeer p => handleNewPeerMsg env p s
  | Msg.txm h p =>
    let r := handleTxMsg env h p s
    (r.1, r.2 ++ [Action.signalReply])
  | Msg.blockm h p =>
    let r := handleBlockMsg env h p s
    (r.1, r.2 ++ [Action.signalReply])
  | Msg.invm invVects p => handleInvMsg env invVects p s
  | Msg.headersm headers p => handleHeadersMsg env headers p s
  | Msg.mempoolm p => (s, [Action.onMemPool p, Action.signalReply])
  | Msg.getBlocksm p => (s, [Action.onGetBlocks p, Action.signalReply])
  | Msg.donePeer p => handleDonePeerMsg env p s
  | Msg.getSyncPeer => (s, [Action.signalReply])
  | Msg.isCurrentm => (s, [Action.signalReply])
  | Msg.pausem => (s, [])
  | Msg.minedBlock h => handleMinedBlockMsg env h s
  | Msg.ping _ => (s, [])

/-! ## Library lemmas about the association-list and bounded-set primitives -/

theorem lookupA_eraseA {α : Type} (l : List (PeerId × α)) (p : PeerId) (q : PeerId) :
    lookupA (eraseA l p) q = if q = p then none else lookupA l q := by
  induction l with
  | nil => simp [eraseA, lookupA]
  | cons a t ih =>
    by_cases ha : a.1 = p
    · by_cases hq : q = p
      · subst hq
        simp [eraseA, ha, ih]
      · have hpq : ¬ ((p : PeerId) = q) := fun hc => hq hc.symm
        simp [eraseA, lookupA, ha, hq, hpq, ih]
    · by_cases haq : a.1 = q
      · have hq : ¬ (q = p) := fun hc => ha (by rw [haq, hc])
        simp [eraseA, lookupA, ha, haq, hq]
      · simp [eraseA, lookupA, ha, haq, ih]

theorem lookupA_insertA {α : Type} (l : List (PeerId × α)) (p : PeerId) (v : α) (q : PeerId) :
    lookupA (insertA l p v) q = if q = p then some v else lookupA l q := by
  unfold insertA
  by_cases hq : q = p
  · simp [lookupA, hq]
  · have hpq : ¬ ((p : PeerId) = q) := fun hc => hq hc.symm
    simp [lookupA, hpq, hq, lookupA_eraseA]

theorem lookupA_updateA {α : Type} (l : List (PeerId × α)) (p : PeerId) (f : α → α) (q : PeerId) :
    lookupA (updateA l p f) q = if q = p then (lookupA l q).map f else lookupA l q := by
  induction l with
  | nil => simp [updateA, lookupA]
  | cons a t ih =>
    by_cases ha : a.1 = p
    · by_cases hq : q = p
      · subst hq
        have haq : a.1 = q := ha
        simp [updateA, lookupA, ha, haq]
      · have hpq : ¬ ((p : PeerId) = q) := fun hc => hq hc.symm
        have haq : ¬ (a.1 = q) := fun hc => hq (by rw [← hc, ha])
        simp [updateA, lookupA, ha, hq, haq, hpq, ih]
    · by_cases haq : a.1 = q
      · have hq : ¬ (q = p) := fun hc => ha (by rw [haq, hc])
        simp [updateA, lookupA, ha, haq, hq]
      · simp [updateA, lookupA, ha, haq, ih]

theorem isSome_lookupA_updateA {α : Type} (l : List (PeerId × α)) (p : PeerId) (f : α → α)
    (q : PeerId) :
    (lookupA (updateA l p f) q).isSome = (lookupA l q).isSome := by
  rw [lookupA_updateA]
  by_cases hq : q = p
  · simp [hq]
  · simp [hq]

theorem limitMap_subset (m : Finset Hash) (limit : Nat) : limitMap m limit ⊆ m := by
  unfold limitMap
  by_cases h : m.card + 1 > limit
  · simp [h]
    match hm : m.min with
    | none => simp
    | some x => simp [Finset.erase_subset]
  · simp [h]

theorem limitMap_card_le (m : Finset Hash) (limit : Nat)
    (h1 : m.card ≤ limit + 1) (h2 : 1 ≤ limit) :
    (limitMap m limit).card ≤ limit := by
  unfold limitMap
  by_cases h : m.card + 1 > limit
  · have hne : m.Nonempty := by
      rw [← Finset.card_pos]
      omega
    match hm : m.min with
    | none =>
      obtain ⟨y, hy⟩ := hne
      obtain ⟨b, hb⟩ := Finset.min_of_mem hy
      rw [hm] at hb
      exact absurd hb.symm (WithTop.coe_ne_top)
    | some x =>
      have hx : x ∈ m := Finset.mem_of_min hm
      simp [h]
      rw [Finset.card_erase_of_mem hx]
      omega
  · simp [h]
    omega

theorem foldl_insert_card_le (l : List Hash) (m : Finset Hash) :
    (l.foldl (fun acc h => insert h acc) m).card ≤ m.card + l.length := by
  induction l generalizing m with
  | nil => simp
  | cons a t ih =>
    calc (List.foldl (fun acc h => insert h acc) (insert a m) t).card
        ≤ (insert a m).card + t.length := ih (insert a m)
      _ ≤ (m.card + 1) + t.length := by
          have := Finset.card_insert_le a m
          omega
      _ = m.card + (a :: t).length := by simp; omega

/-! ## Frame lemmas for the handlers -/

/-- `fetchHeaderBlocks` only touches the requested-blocks indices and the
stalling clocks: sync peer, tx sets, announcement data and the peer-state
key set are untouched. -/
theorem fetchHeaderBlocks_frame (env : Env) (p : PeerId) (s : SMState) :
    (fetchHeaderBlocks env p s).1.syncPeer = s.syncPeer ∧
    (fetchHeaderBlocks env p s).1.rejectedTxns = s.rejectedTxns ∧
    (fetchHeaderBlocks env p s).1.requestedTxns = s.requestedTxns ∧
    (fetchHeaderBlocks env p s).1.lastAnnounced = s.lastAnnounced ∧
    (fetchHeaderBlocks env p s).1.lastBlock = s.lastBlock ∧
    ∀ q, (lookupA (fetchHeaderBlocks env p s).1.peerStates q).isSome =
         (lookupA s.peerStates q).isSome := by
  unfold fetchHeaderBlocks
  repeat' split
  all_goals simp [isSome_lookupA_updateA]

/-! ## Claim theorems -/

/-- A benign concrete environment for witnesses. -/
def envW : Env :=
  { regtest := false, ibd := false, chainIsCurrent := true
    tip := BlockIndex.node 100 0 5 true true none
    indexBestHeader := BlockIndex.node 100 0 5 true true none
    minChainWork := 0, canDirectFetch := false
    findBlockIndex := fun _ => none, findHashInActive := fun _ => none
    findFork := fun _ => none, containsActive := fun _ => false
    mempoolHas := fun _ => false, orphanHas := fun _ => false
    utxoHas := fun _ _ => false
    localhostPeer := fun _ => true, nodeNetworkPeer := fun _ => true
    verAck := fun _ => true, whitelisted := fun _ => false
    nowMicros := 1000
    processTransaction := fun _ _ _ => ([], [], [], none)
    processBlock := fun _ _ => none
    processBlockHeader := fun _ => Except.error 0
    isRejectErr := fun _ => false }

/-- The empty sync-manager state (as built by `New`). -/
def sEmpty : SMState :=
  { rejectedTxns := ∅, requestedTxns := ∅, requestedBlocks := fun _ => none
    syncPeer := none, peerStates := []
    lastBlock := fun _ => 0, lastAnnounced := fun _ => none, stallingSince := fun _ => 0 }

/-- C10: a tx, block, inv or headers message whose originating peer has no
entry in `peerStates` leaves the sync-manager state unchanged and performs
no outbound effect — in particular none of the `ProcessTransaction`,
`ProcessBlock`, `ProcessBlockHeader` callbacks run (callback invocations
are recorded in the action trace, which is empty). -/
theorem C10_unknown_peer_frame (env : Env) (p : PeerId) (s : SMState)
    (hp : lookupA s.peerStates p = none) :
    (∀ txHash, handleTxMsg env txHash p s = (s, [])) ∧
    (∀ blockHash, handleBlockMsg env blockHash p s = (s, [])) ∧
    (∀ invVects, handleInvMsg env invVects p s = (s, [])) ∧
    (∀ headers, handleHeadersMsg env headers p s = (s, [])) := by
  refine ⟨fun txh => ?_, fun bh => ?_, fun invs => ?_, fun hs => ?_⟩
  · simp [handleTxMsg, hp]
  · simp [handleBlockMsg, hp]
  · simp [handleInvMsg, hp]
  · simp [handleHeadersMsg, hp]

/-- Witness for C10 at a concrete input. -/
theorem C10_unknown_peer_frame_witness :
    lookupA sEmpty.peerStates 3 = none ∧
    handleTxMsg envW 5 3 sEmpty = (sEmpty, []) ∧
    handleHeadersMsg envW [⟨7, 6⟩] 3 sEmpty = (sEmpty, []) := by
  refine ⟨rfl, ?_, ?_⟩
  · exact (C10_unknown_peer_frame envW 3 sEmpty rfl).1 5
  · exact (C10_unknown_peer_frame envW 3 sEmpty rfl).2.2.2 [⟨7, 6⟩]

/-- C2 (code bug): a queued `pingMsg` reaches the event loop's type switch,
which has no `pingMsg` case; it falls to the default branch (a log line),
so the ping's reply channel is never signalled — the step emits no actions
at all, while every other reply-carrying message emits `signalReply`. -/
theorem C2_ping_reply_never_signalled (env : Env) (s : SMState) (p : PeerId) :
    messageStep env s (Msg.ping p) = (s, []) ∧
    Action.signalReply ∈ (messageStep env s (Msg.mempoolm p)).2 ∧
    Action.signalReply ∈ (messageStep env s (Msg.getBlocksm p)).2 ∧
    Action.signalReply ∈ (messageStep env s (Msg.txm 0 p)).2 ∧
    Action.signalReply ∈ (messageStep env s (Msg.blockm 0 p)).2 ∧
    Action.signalReply ∈ (messageStep env s (Msg.minedBlock 0)).2 ∧
    Action.signalReply ∈ (messageStep env s Msg.getSyncPeer).2 ∧
    Action.signalReply ∈ (messageStep env s Msg.isCurrentm).2 := by
  refine ⟨rfl, by simp [messageStep], by simp [messageStep], ?_, ?_, ?_,
    by simp [messageStep], by simp [messageStep]⟩
  · simp [messageStep]
  · simp [messageStep]
  · simp [messageStep, handleMinedBlockMsg]
    match env.processBlock 0 true with
    | some _ => simp
    | none => simp


/-! ## C4: sync-peer election comparison -/

/-- Any peer produced by the `startSync` candidate scan is a candidate whose
last known block height is at least (not strictly above) the tip height. -/
theorem startSyncScanAux_sound (env : Env) (s : SMState) :
    ∀ (l : List (PeerId × PeerSyncState)) (o : Option PeerId) (q : PeerId),
      startSyncScanAux env s l o = some q →
      o = some q ∨ ∃ ps, (q, ps) ∈ l ∧ ps.syncCandidate = true ∧
        env.tip.height ≤ s.lastBlock q := by
  intro l
  induction l with
  | nil => intro o q h; exact Or.inl h
  | cons a t ih =>
    intro o q h
    by_cases hcand : a.2.syncCandidate
    · by_cases hlt : s.lastBlock a.1 < env.tip.height
      · rw [startSyncScanAux, if_neg (by simp [hcand]), if_pos hlt] at h
        rcases ih o q h with h1 | ⟨ps, hmem, hc, hge⟩
        · exact Or.inl h1
        · exact Or.inr ⟨ps, List.mem_cons_of_mem a hmem, hc, hge⟩
      · rw [startSyncScanAux, if_neg (by simp [hcand]), if_neg hlt] at h
        rcases ih (some a.1) q h with h1 | ⟨ps, hmem, hc, hge⟩
        · have haq : a.1 = q := Option.some.inj h1
          refine Or.inr ⟨a.2, ?_, hcand, ?_⟩
          · rw [← haq]; exact List.mem_cons_self a t
          · rw [← haq]; omega
        · exact Or.inr ⟨ps, List.mem_cons_of_mem a hmem, hc, hge⟩
    · rw [startSyncScanAux, if_pos (by simp [hcand])] at h
      rcases ih o q h with h1 | ⟨ps, hmem, hc, hge⟩
      · exact Or.inl h1
      · exact Or.inr ⟨ps, List.mem_cons_of_mem a hmem, hc, hge⟩

/-- When every candidate is below the tip, the scan elects nobody. -/
theorem startSyncScanAux_none (env : Env) (s : SMState) :
    ∀ (l : List (PeerId × PeerSyncState)),
      (∀ q ps, (q, ps) ∈ l → ps.syncCandidate = true → s.lastBlock q < env.tip.height) →
      startSyncScanAux env s l none = none := by
  intro l
  induction l with
  | nil => intro _; rfl
  | cons a t ih =>
    intro hall
    by_cases hcand : a.2.syncCandidate
    · have hlt : s.lastBlock a.1 < env.tip.height :=
        hall a.1 a.2 (List.mem_cons_self a t) hcand
      rw [startSyncScanAux, if_neg (by simp [hcand]), if_pos hlt]
      exact ih (fun q ps hm hc => hall q ps (List.mem_cons_of_mem a hm) hc)
    · rw [startSyncScanAux, if_pos (by simp [hcand])]
      exact ih (fun q ps hm hc => hall q ps (List.mem_cons_of_mem a hm) hc)

/-- C4 (amended): when no sync peer is set, `startSync` elects only a
sync-candidate peer whose last known block height is **at least** the local
tip height (the source compares with `<`, deliberately keeping peers at
equal height), and if no candidate has height `≥` tip, no sync peer is
elected. -/
theorem C4_startSync_amended (env : Env) (s : SMState) (hsp : s.syncPeer = none) :
    (∀ q, (startSync env s).1.syncPeer = some q →
        ∃ ps, (q, ps) ∈ s.peerStates ∧ ps.syncCandidate = true ∧
          env.tip.height ≤ s.lastBlock q) ∧
    ((∀ q ps, (q, ps) ∈ s.peerStates → ps.syncCandidate = true →
        s.lastBlock q < env.tip.height) →
      (startSync env s).1.syncPeer = none) := by
  constructor
  · intro q hq
    simp only [startSync, hsp] at hq
    match hscan : startSyncScan env s with
    | none =>
      rw [hscan] at hq
      simp at hq
      rw [hsp] at hq
      exact absurd hq (by simp)
    | some bestPeer =>
      rw [hscan] at hq
      simp only [] at hq
      have hqb : bestPeer = q := by
        by_cases hcur : currentFn env { s with syncPeer := some bestPeer } = true
        · rw [if_pos hcur] at hq
          exact Option.some.inj hq
        · rw [if_neg hcur] at hq
          exact Option.some.inj hq
      have hscan2 : startSyncScanAux env s s.peerStates none = some q := by
        rw [← startSyncScan]
        rw [hscan, hqb]
      rcases startSyncScanAux_sound env s s.peerStates none q hscan2 with h | h
      · exact absurd h (by simp)
      · exact h
  · intro hall
    simp only [startSync, hsp]
    have hscan : startSyncScan env s = none := by
      unfold startSyncScan
      exact startSyncScanAux_none env s s.peerStates hall
    rw [hscan]
    simp [hsp]

/-- Environment for the C4 counterexample: tip height 100. -/
def envC4 : Env :=
  { envW with tip := BlockIndex.node 100 100 5 true true none }

/-- State for the C4 counterexample: one sync-candidate peer whose last
known block height equals the tip height. -/
def sC4 : SMState :=
  { sEmpty with
    peerStates := [(1, PeerSyncState.mkNew true)]
    lastBlock := fun _ => 100 }

/-- C4 counterexample: the claim says a candidate whose last known block
height **equals** the tip height is never elected; the source elects it
(the comparison is `<`, not `≤`). -/
theorem C4_counterexample :
    sC4.lastBlock 1 = envC4.tip.height ∧
    sC4.syncPeer = none ∧
    (startSync envC4 sC4).1.syncPeer = some 1 := by
  refine ⟨rfl, rfl, ?_⟩
  rfl

/-- Witness for the amended C4 theorem at a concrete input. -/
theorem C4_startSync_amended_witness :
    ∃ ps, (1, ps) ∈ sC4.peerStates ∧ ps.syncCandidate = true ∧
      envC4.tip.height ≤ sC4.lastBlock 1 :=
  (C4_startSync_amended envC4 sC4 rfl).1 1 (by rfl)

/-! ## C7: clearing of the rejected-tx cache -/

/-- C7 (amended): when a block from a peer is successfully processed
(`ProcessBlock` returns no error on the path that reaches it), the
rejected-tx cache is cleared wholesale; the mined-block entrypoint does
**not** clear it. -/
theorem C7_peer_block_success_clears_rejected
    (env : Env) (blockHash : Hash) (p : PeerId) (s : SMState) (st : PeerSyncState)
    (hlk : lookupA s.peerStates p = some st)
    (hin : blockHash ∈ st.requestedBlocks ∨ env.regtest = true)
    (hok : env.processBlock blockHash
      ((s.requestedBlocks blockHash).isSome || (env.whitelisted p && !env.ibd)) = none) :
    (handleBlockMsg env blockHash p s).1.rejectedTxns = ∅ := by
  have hcond : ¬ (blockHash ∉ st.requestedBlocks ∧ ¬ env.regtest = true) := by
    rcases hin with h | h
    · intro hc; exact hc.1 h
    · intro hc; exact hc.2 h
  simp only [handleBlockMsg, hlk, if_neg hcond, hok]
  split
  · rename_i hne
    split
    · rename_i hcur
      exact (fetchHeaderBlocks_frame env p _).2.1
    · exact (fetchHeaderBlocks_frame env p _).2.1
  · exact (fetchHeaderBlocks_frame env p _).2.1

/-- State for the C7 artifacts: a nonempty rejected-tx cache, peer 1 with
block 9 in flight. -/
def sC7 : SMState :=
  { sEmpty with
    rejectedTxns := {3}
    requestedTxns := ∅
    requestedBlocks := fun h => if h = 9 then some 1 else none
    peerStates := [(1, { PeerSyncState.mkNew true with requestedBlocks := {9} })] }

/-- C7 counterexample: a locally mined block is successfully processed
(`ProcessBlock` returns no error) yet the rejected-tx cache is left
untouched — the claim says it is empty afterwards on this path too. -/
theorem C7_counterexample :
    envW.processBlock 9 true = none ∧
    (handleMinedBlockMsg envW 9 sC7).1.rejectedTxns = {3} ∧
    ({3} : Finset Hash) ≠ (∅ : Finset Hash) := by
  refine ⟨rfl, rfl, by decide⟩

/-- Witness for the amended C7 theorem at a concrete input. -/
theorem C7_peer_block_success_clears_rejected_witness :
    (handleBlockMsg envW 9 1 sC7).1.rejectedTxns = ∅ :=
  C7_peer_block_success_clears_rejected envW 9 1 sC7
    { PeerSyncState.mkNew true with requestedBlocks := {9} }
    rfl (Or.inl (by decide)) rfl


/-! ## C8: FetchTick stall detection and refill -/

/-- C8: on a `FetchTick` the loop runs `scanToFetchHeaderBlocks`, which
visits every peer state; for a visited peer whose state has
`sync_candidate` true: if its stalling clock is non-zero and reads below
the current time in microseconds minus 2,000,000, the peer is disconnected
(and no fetch is attempted for it); otherwise, when its in-flight set has
fewer than 16 entries, `fetchHeaderBlocks` (fetch_blocks_from) runs for it;
otherwise nothing happens for it. -/
theorem C8_fetchTick_stall_spec (env : Env) (s : SMState) (acts : List Action)
    (p : PeerId) (st : PeerSyncState)
    (hlk : lookupA s.peerStates p = some st)
    (hcand : st.syncCandidate = true) :
    messageStep env s Msg.fetchTick =
      (s.peerStates.map Prod.fst).foldl (scanStep env) (s, []) ∧
    (s.stallingSince p ≠ 0 ∧ s.stallingSince p < env.nowMicros - 2000000 →
      scanStep env (s, acts) p = (s, acts ++ [Action.disconnect p])) ∧
    (¬ (s.stallingSince p ≠ 0 ∧ s.stallingSince p < env.nowMicros - 2000000) →
      st.requestedBlocks.card < 16 →
      scanStep env (s, acts) p =
        ((fetchHeaderBlocks env p s).1, acts ++ (fetchHeaderBlocks env p s).2)) ∧
    (¬ (s.stallingSince p ≠ 0 ∧ s.stallingSince p < env.nowMicros - 2000000) →
      ¬ st.requestedBlocks.card < 16 →
      scanStep env (s, acts) p = (s, acts)) := by
  have htimeout : BLOCK_STALLING_TIMEOUT = 2000000 := by norm_num [BLOCK_STALLING_TIMEOUT]
  have hmax : MAX_BLOCKS_IN_TRANSIT_PER_PEER = 16 := rfl
  refine ⟨rfl, ?_, ?_, ?_⟩
  · intro hstall
    simp only [scanStep, hlk, htimeout, hmax]
    rw [if_neg (by simp [hcand]), if_pos hstall]
  · intro hstall hcard
    simp only [scanStep, hlk, htimeout, hmax]
    rw [if_neg (by simp [hcand]), if_neg hstall, if_pos hcard]
  · intro hstall hcard
    simp only [scanStep, hlk, htimeout, hmax]
    rw [if_neg (by simp [hcand]), if_neg hstall, if_neg hcard]

/-- State for the C8 witness: candidate peer 1 with a stalling clock set at
5 µs while the clock reads 3,000,005 µs. -/
def sC8 : SMState :=
  { sEmpty with
    peerStates := [(1, PeerSyncState.mkNew true)]
    stallingSince := fun q => if q = 1 then 5 else 0 }

/-- Environment for the C8 witness. -/
def envC8 : Env := { envW with nowMicros := 3000005 }

/-- Witness for C8 at a concrete input: the stalled candidate peer is
disconnected on the tick's visit. -/
theorem C8_fetchTick_stall_spec_witness :
    scanStep envC8 (sC8, []) 1 = (sC8, [Action.disconnect 1]) := by
  have h := (C8_fetchTick_stall_spec envC8 sC8 [] 1 (PeerSyncState.mkNew true) rfl rfl).2.1
  have hs : sC8.stallingSince 1 ≠ 0 ∧ sC8.stallingSince 1 < envC8.nowMicros - 2000000 := by
    constructor
    · decide
    · decide
  simpa using h hs

/-! ## C6: unconnecting-headers accounting -/

/-- Single-batch unconnecting-headers accounting (helper for C6): the
increment path is taken outside IBD, and also during IBD when the sender
already is the sync peer or is adopted as it (no sync peer yet). -/
theorem c6_single_unconnecting_batch (env : Env) (headers : List BlockHeader)
    (p : PeerId) (s : SMState) (st : PeerSyncState) (h0 : BlockHeader)
    (hlk : lookupA s.peerStates p = some st)
    (hhd : headers.head? = some h0)
    (hunk : env.findBlockIndex h0.hashPrevBlock = none)
    (hok : env.ibd = false ∨ s.syncPeer = some p ∨ s.syncPeer = none) :
    (lookupA (handleHeadersMsg env headers p s).1.peerStates p).map
        PeerSyncState.unconnectingHeaders = some (st.unconnectingHeaders + 1) ∧
    Action.pushGetHeaders p env.indexBestHeader.hash zeroHash ∈
      (handleHeadersMsg env headers p s).2 ∧
    (Action.addBanScore p 20 0 "too-many-unconnected-headers" ∈
        (handleHeadersMsg env headers p s).2 ↔
      (st.unconnectingHeaders + 1) % 10 = 0) := by
  have hres : handleHeadersMsg env headers p s = fetchHeadersToConnect env p s := by
    unfold handleHeadersMsg
    rw [hlk, hhd]
    simp [hunk]
  rw [hres]
  unfold fetchHeadersToConnect
  have hmod : MAX_UNCONNECTING_HEADERS = 10 := rfl
  by_cases hibd : env.ibd = true
  · rcases hok with hf | hsp | hnone
    · rw [hf] at hibd
      cases hibd
    · rw [if_neg (show ¬ (env.ibd = true ∧ s.syncPeer = none) from by
        intro hc
        rw [hsp] at hc
        cases hc.2)]
      rw [if_neg (show ¬ (env.ibd = true ∧ ¬ s.syncPeer = some p) from by
        intro hc
        exact hc.2 hsp)]
      by_cases hdiv : (st.unconnectingHeaders + 1) % 10 = 0
      · simp [hlk, lookupA_updateA, hmod, hdiv]
      · simp [hlk, lookupA_updateA, hmod, hdiv]
    · rw [if_pos (show env.ibd = true ∧ s.syncPeer = none from ⟨hibd, hnone⟩)]
      rw [if_neg (show ¬ (env.ibd = true ∧
          ¬ ({ s with syncPeer := some p } : SMState).syncPeer = some p) from by
        intro hc
        exact hc.2 rfl)]
      by_cases hdiv : (st.unconnectingHeaders + 1) % 10 = 0
      · simp [hlk, lookupA_updateA, hmod, hdiv]
      · simp [hlk, lookupA_updateA, hmod, hdiv]
  · rw [if_neg (show ¬ (env.ibd = true ∧ s.syncPeer = none) from fun hc => hibd hc.1)]
    rw [if_neg (show ¬ (env.ibd = true ∧ ¬ s.syncPeer = some p) from fun hc => hibd hc.1)]
    by_cases hdiv : (st.unconnectingHeaders + 1) % 10 = 0
    · simp [hlk, lookupA_updateA, hmod, hdiv]
    · simp [hlk, lookupA_updateA, hmod, hdiv]

/-- Environment for the C6 scenario: first header's parent unknown, not in
IBD. -/
def envC6 : Env := envW

/-- State for the C6 scenario: known peer 1, counter 0. -/
def sC6 : SMState := { sEmpty with peerStates := [(1, PeerSyncState.mkNew true)] }

/-- One C6 iteration: feed the same unconnectable one-header batch and
count the ban-score reports. -/
def c6Step (sc : SMState × Nat) : SMState × Nat :=
  let r := handleHeadersMsg envC6 [⟨7, 6⟩] 1 sc.1
  (r.1, sc.2 + r.2.count (Action.addBanScore 1 20 0 "too-many-unconnected-headers"))

/-- Ten-batch scenario (helper for C6): after 10 consecutive unconnectable
batches the counter equals 10 and the ban-score call occurred exactly
once. -/
theorem c6_ten_batches_once :
    (lookupA (c6Step^[10] (sC6, 0)).1.peerStates 1).map
        PeerSyncState.unconnectingHeaders = some 10 ∧
    (c6Step^[10] (sC6, 0)).2 = 1 := by
  constructor
  · decide
  · decide

/-- C6 (amended): a non-empty headers message from a known peer whose first
header's parent is unknown to the chain index increments that peer's
`unconnecting_headers` counter, pushes a `getheaders` anchored at the
current best header, and reports
`AddBanScore(20, 0, "too-many-unconnected-headers")` exactly when the
incremented counter reaches a multiple of 10 — unless initial block
download is active with a sync peer other than the sender, where the
handler ignores the batch (see the counterexample).  The covered cases are
thus: outside IBD, during IBD when the sender is the sync peer, and during
IBD with no sync peer yet (the sender is adopted).  In particular after 10
consecutive such batches from one peer starting at counter 0, the ban-score
call has occurred exactly once and the counter equals 10. -/
theorem C6_unconnecting_headers_amended (env : Env) (headers : List BlockHeader)
    (p : PeerId) (s : SMState) (st : PeerSyncState) (h0 : BlockHeader)
    (hlk : lookupA s.peerStates p = some st)
    (hhd : headers.head? = some h0)
    (hunk : env.findBlockIndex h0.hashPrevBlock = none)
    (hok : env.ibd = false ∨ s.syncPeer = some p ∨ s.syncPeer = none) :
    ((lookupA (handleHeadersMsg env headers p s).1.peerStates p).map
        PeerSyncState.unconnectingHeaders = some (st.unconnectingHeaders + 1) ∧
      Action.pushGetHeaders p env.indexBestHeader.hash zeroHash ∈
        (handleHeadersMsg env headers p s).2 ∧
      (Action.addBanScore p 20 0 "too-many-unconnected-headers" ∈
          (handleHeadersMsg env headers p s).2 ↔
        (st.unconnectingHeaders + 1) % 10 = 0)) ∧
    ((lookupA (c6Step^[10] (sC6, 0)).1.peerStates 1).map
        PeerSyncState.unconnectingHeaders = some 10 ∧
      (c6Step^[10] (sC6, 0)).2 = 1) :=
  ⟨c6_single_unconnecting_batch env headers p s st h0 hlk hhd hunk hok,
   c6_ten_batches_once⟩

/-- Witness for the amended C6 theorem at a concrete input. -/
theorem C6_unconnecting_headers_amended_witness :
    (lookupA (handleHeadersMsg envC6 [⟨7, 6⟩] 1 sC6).1.peerStates 1).map
        PeerSyncState.unconnectingHeaders = some 1 :=
  (C6_unconnecting_headers_amended envC6 [⟨7, 6⟩] 1 sC6
    (PeerSyncState.mkNew true) ⟨7, 6⟩ rfl rfl rfl (Or.inl rfl)).1.1

/-- Environment for the C6 counterexample: IBD is active and the first
header's parent is unknown; the sender is not verack'ed so the fallback
block fetch is a no-op. -/
def envC6x : Env := { envW with ibd := true, verAck := fun _ => false }

/-- State for the C6 counterexample: peer 1 known with counter 0, while the
sync peer is peer 2. -/
def sC6x : SMState :=
  { sEmpty with
    peerStates := [(1, PeerSyncState.mkNew true), (2, PeerSyncState.mkNew true)]
    syncPeer := some 2 }

/-- C6 counterexample: during IBD with a different sync peer, an
unconnectable headers batch from peer 1 leaves its counter at 0 and pushes
neither a getheaders nor a ban score — the claim requires an increment and
a getheaders push on every such batch. -/
theorem C6_counterexample :
    envC6x.ibd = true ∧
    sC6x.syncPeer = some 2 ∧
    (lookupA sC6x.peerStates 1).map PeerSyncState.unconnectingHeaders = some 0 ∧
    handleHeadersMsg envC6x [⟨7, 6⟩] 1 sC6x = (sC6x, []) := by
  refine ⟨rfl, rfl, rfl, ?_⟩
  rfl


/-! ## Individual frame lemmas (simp-oriented) -/

theorem fetchHeaderBlocks_fst_syncPeer (env : Env) (p : PeerId) (s : SMState) :
    (fetchHeaderBlocks env p s).1.syncPeer = s.syncPeer :=
  (fetchHeaderBlocks_frame env p s).1

theorem fetchHeaderBlocks_fst_rejectedTxns (env : Env) (p : PeerId) (s : SMState) :
    (fetchHeaderBlocks env p s).1.rejectedTxns = s.rejectedTxns :=
  (fetchHeaderBlocks_frame env p s).2.1

theorem fetchHeaderBlocks_fst_requestedTxns (env : Env) (p : PeerId) (s : SMState) :
    (fetchHeaderBlocks env p s).1.requestedTxns = s.requestedTxns :=
  (fetchHeaderBlocks_frame env p s).2.2.1

theorem fetchHeaderBlocks_isSome_lookup (env : Env) (p : PeerId) (s : SMState) (q : PeerId) :
    (lookupA (fetchHeaderBlocks env p s).1.peerStates q).isSome =
    (lookupA s.peerStates q).isSome :=
  (fetchHeaderBlocks_frame env p s).2.2.2.2.2 q

theorem updatePeerState_frame (env : Env) (headers : List BlockHeader) (p : PeerId)
    (s : SMState) :
    (updatePeerState env headers p s).1.rejectedTxns = s.rejectedTxns ∧
    (updatePeerState env headers p s).1.requestedTxns = s.requestedTxns ∧
    (updatePeerState env headers p s).1.requestedBlocks = s.requestedBlocks ∧
    (updatePeerState env headers p s).1.syncPeer = s.syncPeer ∧
    (updatePeerState env headers p s).1.peerStates = s.peerStates ∧
    (updatePeerState env headers p s).1.stallingSince = s.stallingSince := by
  simp only [updatePeerState]
  repeat' split
  all_goals simp

theorem updatePeerState_fst_rejectedTxns (env : Env) (headers : List BlockHeader)
    (p : PeerId) (s : SMState) :
    (updatePeerState env headers p s).1.rejectedTxns = s.rejectedTxns :=
  (updatePeerState_frame env headers p s).1

theorem updatePeerState_fst_requestedTxns (env : Env) (headers : List BlockHeader)
    (p : PeerId) (s : SMState) :
    (updatePeerState env headers p s).1.requestedTxns = s.requestedTxns :=
  (updatePeerState_frame env headers p s).2.1

theorem updatePeerState_fst_requestedBlocks (env : Env) (headers : List BlockHeader)
    (p : PeerId) (s : SMState) :
    (updatePeerState env headers p s).1.requestedBlocks = s.requestedBlocks :=
  (updatePeerState_frame env headers p s).2.2.1

theorem updatePeerState_fst_syncPeer (env : Env) (headers : List BlockHeader)
    (p : PeerId) (s : SMState) :
    (updatePeerState env headers p s).1.syncPeer = s.syncPeer :=
  (updatePeerState_frame env headers p s).2.2.2.1

theorem updatePeerState_fst_peerStates (env : Env) (headers : List BlockHeader)
    (p : PeerId) (s : SMState) :
    (updatePeerState env headers p s).1.peerStates = s.peerStates :=
  (updatePeerState_frame env headers p s).2.2.2.2.1

theorem updatePeerState_fst_stallingSince (env : Env) (headers : List BlockHeader)
    (p : PeerId) (s : SMState) :
    (updatePeerState env headers p s).1.stallingSince = s.stallingSince :=
  (updatePeerState_frame env headers p s).2.2.2.2.2

theorem fetchBlocks_frame (env : Env) (p : PeerId) (v : List BlockIndex) (s : SMState) :
    (fetchBlocks env p v s).1.rejectedTxns = s.rejectedTxns ∧
    (fetchBlocks env p v s).1.requestedTxns = s.requestedTxns ∧
    (fetchBlocks env p v s).1.syncPeer = s.syncPeer ∧
    (fetchBlocks env p v s).1.lastBlock = s.lastBlock ∧
    (fetchBlocks env p v s).1.lastAnnounced = s.lastAnnounced ∧
    (fetchBlocks env p v s).1.stallingSince = s.stallingSince ∧
    ∀ q, (lookupA (fetchBlocks env p v s).1.peerStates q).isSome =
         (lookupA s.peerStates q).isSome := by
  simp only [fetchBlocks]
  repeat' split
  all_goals simp [isSome_lookupA_updateA]

theorem fetchBlocks_fst_rejectedTxns (env : Env) (p : PeerId) (v : List BlockIndex)
    (s : SMState) :
    (fetchBlocks env p v s).1.rejectedTxns = s.rejectedTxns :=
  (fetchBlocks_frame env p v s).1

theorem fetchBlocks_fst_requestedTxns (env : Env) (p : PeerId) (v : List BlockIndex)
    (s : SMState) :
    (fetchBlocks env p v s).1.requestedTxns = s.requestedTxns :=
  (fetchBlocks_frame env p v s).2.1

theorem fetchBlocks_fst_syncPeer (env : Env) (p : PeerId) (v : List BlockIndex)
    (s : SMState) :
    (fetchBlocks env p v s).1.syncPeer = s.syncPeer :=
  (fetchBlocks_frame env p v s).2.2.1

theorem startSync_frame (env : Env) (s : SMState) :
    (startSync env s).1.rejectedTxns = s.rejectedTxns ∧
    (startSync env s).1.requestedTxns = s.requestedTxns ∧
    (startSync env s).1.requestedBlocks = s.requestedBlocks ∧
    (startSync env s).1.peerStates = s.peerStates ∧
    (startSync env s).1.lastBlock = s.lastBlock ∧
    (startSync env s).1.lastAnnounced = s.lastAnnounced ∧
    (startSync env s).1.stallingSince = s.stallingSince := by
  simp only [startSync]
  repeat' split
  all_goals simp

theorem startSync_fst_rejectedTxns (env : Env) (s : SMState) :
    (startSync env s).1.rejectedTxns = s.rejectedTxns :=
  (startSync_frame env s).1

theorem startSync_fst_requestedTxns (env : Env) (s : SMState) :
    (startSync env s).1.requestedTxns = s.requestedTxns :=
  (startSync_frame env s).2.1

theorem startSync_fst_requestedBlocks (env : Env) (s : SMState) :
    (startSync env s).1.requestedBlocks = s.requestedBlocks :=
  (startSync_frame env s).2.2.1

theorem startSync_fst_peerStates (env : Env) (s : SMState) :
    (startSync env s).1.peerStates = s.peerStates :=
  (startSync_frame env s).2.2.2.1

theorem fetchHeadersToConnect_txframe (env : Env) (p : PeerId) (s : SMState) :
    (fetchHeadersToConnect env p s).1.rejectedTxns = s.rejectedTxns ∧
    (fetchHeadersToConnect env p s).1.requestedTxns = s.requestedTxns := by
  simp only [fetchHeadersToConnect]
  repeat' split
  all_goals
    simp [fetchHeaderBlocks_fst_rejectedTxns, fetchHeaderBlocks_fst_requestedTxns]

theorem handleHeadersMsg_txframe (env : Env) (headers : List BlockHeader) (p : PeerId)
    (s : SMState) :
    (handleHeadersMsg env headers p s).1.rejectedTxns = s.rejectedTxns ∧
    (handleHeadersMsg env headers p s).1.requestedTxns = s.requestedTxns := by
  simp only [handleHeadersMsg]
  repeat' split
  all_goals
    simp [fetchHeaderBlocks_fst_rejectedTxns, fetchHeaderBlocks_fst_requestedTxns,
      fetchHeadersToConnect_txframe, fetchBlocks_fst_rejectedTxns,
      fetchBlocks_fst_requestedTxns, updatePeerState_fst_rejectedTxns,
      updatePeerState_fst_requestedTxns, (fetchHeadersToConnect_txframe env p s).1,
      (fetchHeadersToConnect_txframe env p s).2]


/-! ## C3: cardinality bounds on the tx caches -/

/-- The two global tx-cache bounds of the claim. -/
def TxBounds (s : SMState) : Prop :=
  s.rejectedTxns.card ≤ maxRejectedTxns ∧ s.requestedTxns.card ≤ maxRequestedTxns

theorem drainLoop_requestedTxns_card (env : Env) (rb : Hash → Option PeerId) (p : PeerId) :
    ∀ (l : List InvVect) (acc : DrainAcc),
      acc.requestedTxns.card ≤ maxRequestedTxns →
      (drainLoop env rb p l acc).2.requestedTxns.card ≤ maxRequestedTxns := by
  have hlim : 1 ≤ maxRequestedTxns := by norm_num [maxRequestedTxns, maxInvPerMsg]
  intro l
  induction l with
  | nil => intro acc h; simpa [drainLoop] using h
  | cons iv rest ih =>
    intro acc h
    obtain ⟨ty, hsh⟩ := iv
    cases ty with
    | blockType =>
      simp only [drainLoop]
      split
      · split
        · simpa using h
        · exact ih _ (by simpa using h)
      · split
        · simpa using h
        · exact ih _ (by simpa using h)
    | txType =>
      simp only [drainLoop]
      split
      · rename_i hnotin
        have hcard : (limitMap (insert hsh acc.requestedTxns) maxRequestedTxns).card ≤
            maxRequestedTxns := by
          apply limitMap_card_le
          · have := Finset.card_insert_le hsh acc.requestedTxns
            omega
          · exact hlim
        split
        · simpa using hcard
        · exact ih _ (by simpa using hcard)
      · split
        · simpa using h
        · exact ih _ (by simpa using h)
    | otherType =>
      simp only [drainLoop]
      split
      · simpa using h
      · exact ih _ (by simpa using h)

theorem updateTxRequestState_bounds (s : SMState) (p : PeerId) (txHash : Hash)
    (rejectTxs : List Hash) (hlen : rejectTxs.length ≤ 1) (hb : TxBounds s) :
    TxBounds (updateTxRequestState s p txHash rejectTxs) := by
  obtain ⟨h1, h2⟩ := hb
  constructor
  · apply limitMap_card_le
    · have := foldl_insert_card_le rejectTxs s.rejectedTxns
      have : (rejectTxs.foldl (fun m h => insert h m) s.rejectedTxns).card ≤
          s.rejectedTxns.card + 1 := by omega
      omega
    · norm_num [maxRejectedTxns]
  · calc (s.requestedTxns.erase txHash).card ≤ s.requestedTxns.card :=
          Finset.card_erase_le
      _ ≤ maxRequestedTxns := h2

theorem txBounds_fetchHeaderBlocks (env : Env) (p : PeerId) (s : SMState)
    (hb : TxBounds s) : TxBounds (fetchHeaderBlocks env p s).1 := by
  unfold TxBounds
  rw [fetchHeaderBlocks_fst_rejectedTxns, fetchHeaderBlocks_fst_requestedTxns]
  exact hb

theorem txBounds_startSync (env : Env) (s : SMState) (hb : TxBounds s) :
    TxBounds (startSync env s).1 := by
  unfold TxBounds
  rw [startSync_fst_rejectedTxns, startSync_fst_requestedTxns]
  exact hb

theorem txBounds_scanFold (env : Env) :
    ∀ (l : List PeerId) (sa : SMState × List Action), TxBounds sa.1 →
      TxBounds (l.foldl (scanStep env) sa).1 := by
  intro l
  induction l with
  | nil => intro sa h; exact h
  | cons q rest ih =>
    intro sa h
    apply ih
    simp only [scanStep]
    repeat' split
    all_goals first
      | exact h
      | exact txBounds_fetchHeaderBlocks env q sa.1 h

theorem txBounds_handleTxMsg (env : Env)
    (hrej : ∀ a b c, ((env.processTransaction a b c).2.2.1).length ≤ 1)
    (txHash : Hash) (p : PeerId) (s : SMState) (hb : TxBounds s) :
    TxBounds (handleTxMsg env txHash p s).1 := by
  have hupd := updateTxRequestState_bounds s p txHash
    (env.processTransaction txHash s.rejectedTxns p).2.2.1
    (hrej txHash s.rejectedTxns p) hb
  simp only [handleTxMsg]
  repeat' split
  all_goals first
    | exact hb
    | simpa using hupd

theorem txBounds_handleBlockMsg (env : Env) (blockHash : Hash) (p : PeerId) (s : SMState)
    (hb : TxBounds s) : TxBounds (handleBlockMsg env blockHash p s).1 := by
  simp only [handleBlockMsg]
  repeat' split
  all_goals first
    | exact hb
    | exact txBounds_fetchHeaderBlocks env p _ ⟨hb.1, hb.2⟩
    | exact txBounds_fetchHeaderBlocks env p _ ⟨by simp [maxRejectedTxns], hb.2⟩

theorem txBounds_handleInvMsg (env : Env) (invVects : List InvVect) (p : PeerId)
    (s : SMState) (hb : TxBounds s) : TxBounds (handleInvMsg env invVects p s).1 := by
  simp only [handleInvMsg]
  repeat' split
  all_goals first
    | exact hb
    | (refine ⟨by simpa using hb.1, ?_⟩
       apply drainLoop_requestedTxns_card
       simpa using hb.2)

theorem txBounds_clearSyncPeerState (s : SMState) (p : PeerId) (hb : TxBounds s) :
    TxBounds (clearSyncPeerState s p) := by
  unfold clearSyncPeerState
  split
  · exact hb
  · constructor
    · exact hb.1
    · calc (s.requestedTxns \ _).card ≤ s.requestedTxns.card :=
            Finset.card_le_card (Finset.sdiff_subset)
        _ ≤ maxRequestedTxns := hb.2

theorem txBounds_handleHeadersMsg (env : Env) (headers : List BlockHeader) (p : PeerId)
    (s : SMState) (hb : TxBounds s) : TxBounds (handleHeadersMsg env headers p s).1 := by
  unfold TxBounds
  rw [(handleHeadersMsg_txframe env headers p s).1, (handleHeadersMsg_txframe env headers p s).2]
  exact hb

theorem txBounds_handleNewPeerMsg (env : Env) (p : PeerId) (s : SMState)
    (hb : TxBounds s) : TxBounds (handleNewPeerMsg env p s).1 := by
  simp only [handleNewPeerMsg]
  repeat' split
  all_goals first
    | exact txBounds_startSync env _ ⟨hb.1, hb.2⟩
    | exact txBounds_fetchHeaderBlocks env p _ ⟨hb.1, hb.2⟩

theorem txBounds_handleDonePeerMsg (env : Env) (p : PeerId) (s : SMState)
    (hb : TxBounds s) : TxBounds (handleDonePeerMsg env p s).1 := by
  have hc := txBounds_clearSyncPeerState s p hb
  simp only [handleDonePeerMsg]
  split
  · exact txBounds_startSync env _ ⟨hc.1, hc.2⟩
  · exact hc

/-- C3 (amended): after every event-loop step, `|requested_txns| ≤
MAX_INV_PER_MSG` always, and `|rejected_txns| ≤ 1000` provided every
`ProcessTransaction` call reports at most one reject hash (`limitMap`
evicts at most one entry per call, so a call returning several reject
hashes can push the cache above 1000 — see the counterexample). -/
theorem C3_bounds_amended (env : Env)
    (hrej : ∀ a b c, ((env.processTransaction a b c).2.2.1).length ≤ 1)
    (s : SMState) (msg : Msg) (hb : TxBounds s) :
    TxBounds (messageStep env s msg).1 := by
  cases msg with
  | newPeer p => exact txBounds_handleNewPeerMsg env p s hb
  | txm h p => exact txBounds_handleTxMsg env hrej h p s hb
  | blockm h p => exact txBounds_handleBlockMsg env h p s hb
  | invm invVects p => exact txBounds_handleInvMsg env invVects p s hb
  | headersm headers p => exact txBounds_handleHeadersMsg env headers p s hb
  | mempoolm p => exact hb
  | getBlocksm p => exact hb
  | ping p => exact hb
  | donePeer p => exact txBounds_handleDonePeerMsg env p s hb
  | getSyncPeer => exact hb
  | isCurrentm => exact hb
  | pausem => exact hb
  | minedBlock h =>
    simp only [messageStep, handleMinedBlockMsg]
    split <;> exact hb
  | fetchTick => exact txBounds_scanFold env _ (s, []) hb

theorem finset_min_eq (s : Finset Nat) (a : Nat) (ha : a ∈ s) (hle : ∀ b ∈ s, a ≤ b) :
    s.min = (a : WithTop Nat) := by
  apply le_antisymm
  · exact Finset.min_le ha
  · apply Finset.le_min
    intro b hb
    exact WithTop.coe_le_coe.mpr (hle b hb)

/-- Environment for the C3 counterexample: ProcessTransaction reports two
reject hashes at once. -/
def envC3 : Env :=
  { envW with processTransaction := fun _ _ _ => ([], [], [2000, 2001], none) }

/-- State for the C3 counterexample: the rejection cache is exactly full. -/
def sC3 : SMState :=
  { sEmpty with
    rejectedTxns := Finset.range 1000
    peerStates := [(1, PeerSyncState.mkNew true)] }

/-- C3 counterexample: a single Tx event whose `ProcessTransaction` returns
two reject hashes pushes `rejected_txns` to 1001 entries — `limitMap`
evicts only one. -/
theorem updateTx_two_rejects_card (s : SMState) (p : PeerId) (txh a b c : Hash)
    (m : Finset Hash) (hs : s.rejectedTxns = m)
    (hbig : maxRejectedTxns < (insert b (insert a m)).card + 1)
    (hmin : (insert b (insert a m)).min = some c)
    (hc : c ∈ insert b (insert a m)) :
    (updateTxRequestState s p txh [a, b]).rejectedTxns.card =
      (insert b (insert a m)).card - 1 := by
  simp only [updateTxRequestState, List.foldl, hs, limitMap]
  rw [if_pos hbig, hmin]
  simp only []
  rw [Finset.card_erase_of_mem hc]

theorem C3_counterexample :
    sC3.rejectedTxns.card = maxRejectedTxns ∧
    (handleTxMsg envC3 5000 1 sC3).1.rejectedTxns.card = maxRejectedTxns + 1 := by
  have hnot2000 : (2000 : Hash) ∉ Finset.range 1000 := by
    rw [Finset.mem_range]
    norm_num
  have hnot2001 : (2001 : Hash) ∉ insert (2000 : Hash) (Finset.range 1000) := by
    rw [Finset.mem_insert, Finset.mem_range]
    norm_num
  have hcard : (insert (2001 : Hash) (insert (2000 : Hash) (Finset.range 1000))).card
      = 1002 := by
    rw [Finset.card_insert_of_not_mem hnot2001, Finset.card_insert_of_not_mem hnot2000,
      Finset.card_range]
  have hmem0 : (0 : Hash) ∈ insert (2001 : Hash) (insert (2000 : Hash) (Finset.range 1000)) := by
    rw [Finset.mem_insert, Finset.mem_insert, Finset.mem_range]
    norm_num
  have hmin : (insert (2001 : Hash) (insert (2000 : Hash) (Finset.range 1000))).min
      = some (0 : Nat) :=
    finset_min_eq _ 0 hmem0 (fun b _ => Nat.zero_le b)
  constructor
  · show (Finset.range 1000).card = maxRejectedTxns
    rw [Finset.card_range]
    norm_num [maxRejectedTxns]
  · have hlk : lookupA sC3.peerStates 1 = some (PeerSyncState.mkNew true) := rfl
    have halready : alreadyHave envC3 sC3 5000 = false := by
      have h5000 : (5000 : Hash) ∉ sC3.rejectedTxns := by
        show (5000 : Hash) ∉ Finset.range 1000
        rw [Finset.mem_range]
        norm_num
      simp [alreadyHave, haveInventory, envC3, envW, h5000]
    have hproc : envC3.processTransaction 5000 sC3.rejectedTxns 1 =
        ([], [], [2000, 2001], none) := rfl
    have hkey : (updateTxRequestState sC3 1 5000 [2000, 2001]).rejectedTxns.card = 1001 := by
      have := updateTx_two_rejects_card sC3 1 5000 2000 2001 0 (Finset.range 1000) rfl
        (by rw [hcard]; norm_num [maxRejectedTxns]) hmin hmem0
      rw [this, hcard]
    simp only [handleTxMsg, hlk, halready, Bool.false_eq_true, if_false, ite_false, hproc]
    repeat' split
    all_goals
      show (updateTxRequestState sC3 1 5000 [2000, 2001]).rejectedTxns.card =
        maxRejectedTxns + 1
    all_goals rw [hkey]
    all_goals norm_num [maxRejectedTxns]

/-- Witness for the amended C3 theorem at a concrete input. -/
theorem C3_bounds_amended_witness :
    TxBounds (messageStep envW sEmpty (Msg.txm 5 1)).1 :=
  C3_bounds_amended envW (fun _ _ _ => by simp [envW]) sEmpty (Msg.txm 5 1)
    ⟨by simp [sEmpty], by simp [sEmpty]⟩


/-! ## C5: the sync peer is always a known peer -/

/-- The membership half of the claimed invariant: whenever a sync peer is
set, it has an entry in `peerStates`. -/
def SyncPeerOk (s : SMState) : Prop :=
  ∀ q, s.syncPeer = some q → (lookupA s.peerStates q).isSome = true

theorem lookupA_isSome_of_mem {α : Type} (l : List (PeerId × α)) (q : PeerId) (v : α)
    (h : (q, v) ∈ l) : (lookupA l q).isSome = true := by
  induction l with
  | nil => cases h
  | cons a t ih =>
    rcases List.mem_cons.mp h with h1 | h1
    · rw [← h1]
      simp [lookupA]
    · by_cases ha : a.1 = q
      · simp [lookupA, ha]
      · simp [lookupA, ha]
        exact ih h1

theorem spok_of_frame {s s' : SMState} (hsp : s'.syncPeer = s.syncPeer)
    (hlk : ∀ q, (lookupA s'.peerStates q).isSome = (lookupA s.peerStates q).isSome)
    (h : SyncPeerOk s) : SyncPeerOk s' := by
  intro q hq
  rw [hlk]
  exact h q (hsp ▸ hq)

theorem spok_fetchHeaderBlocks (env : Env) (p : PeerId) (s : SMState)
    (hs : SyncPeerOk s) : SyncPeerOk (fetchHeaderBlocks env p s).1 :=
  spok_of_frame (fetchHeaderBlocks_fst_syncPeer env p s)
    (fetchHeaderBlocks_isSome_lookup env p s) hs

theorem spok_fetchBlocks (env : Env) (p : PeerId) (v : List BlockIndex) (s : SMState)
    (hs : SyncPeerOk s) : SyncPeerOk (fetchBlocks env p v s).1 :=
  spok_of_frame (fetchBlocks_fst_syncPeer env p v s)
    ((fetchBlocks_frame env p v s).2.2.2.2.2.2) hs

theorem spok_startSync (env : Env) (s : SMState) (hs : SyncPeerOk s) :
    SyncPeerOk (startSync env s).1 := by
  intro q hq
  rw [startSync_fst_peerStates]
  revert hq
  simp only [startSync]
  match hsp : s.syncPeer with
  | some x =>
    intro hq
    exact hs q (hsp.symm ▸ hq)
  | none =>
    match hscan : startSyncScan env s with
    | none =>
      intro hq
      exact absurd (hsp ▸ hq) (by simp)
    | some bp =>
      intro hq
      simp only [] at hq
      have hbq : bp = q := by
        by_cases hcur : currentFn env { s with syncPeer := some bp } = true
        · rw [if_pos hcur] at hq
          simp only [] at hq
          exact Option.some.inj hq
        · rw [if_neg hcur] at hq
          simp only [] at hq
          exact Option.some.inj hq
      have hscan2 : startSyncScanAux env s s.peerStates none = some q := by
        rw [← startSyncScan, hscan, hbq]
      rcases startSyncScanAux_sound env s s.peerStates none q hscan2 with h | ⟨ps, hmem, _, _⟩
      · exact absurd h (by simp)
      · exact lookupA_isSome_of_mem s.peerStates q ps hmem

theorem spok_updateTxRequestState (s : SMState) (p : PeerId) (txHash : Hash)
    (rejectTxs : List Hash) (hs : SyncPeerOk s) :
    SyncPeerOk (updateTxRequestState s p txHash rejectTxs) := by
  apply spok_of_frame (s := s)
  · simp [updateTxRequestState]
  · intro q
    simp [updateTxRequestState, isSome_lookupA_updateA]
  · exact hs

theorem spok_handleTxMsg (env : Env) (txHash : Hash) (p : PeerId) (s : SMState)
    (hs : SyncPeerOk s) : SyncPeerOk (handleTxMsg env txHash p s).1 := by
  simp only [handleTxMsg]
  repeat' split
  all_goals first
    | exact hs
    | exact spok_updateTxRequestState s p txHash _ hs

theorem spok_handleBlockMsg (env : Env) (blockHash : Hash) (p : PeerId) (s : SMState)
    (hs : SyncPeerOk s) : SyncPeerOk (handleBlockMsg env blockHash p s).1 := by
  simp only [handleBlockMsg]
  repeat' split
  all_goals first
    | exact hs
    | exact spok_fetchHeaderBlocks env p _
        (spok_of_frame (by simp) (fun q => by simp [isSome_lookupA_updateA]) hs)
    | exact spok_of_frame (by simp) (fun q => by simp [isSome_lookupA_updateA]) hs

theorem spok_handleInvMsg (env : Env) (invVects : List InvVect) (p : PeerId) (s : SMState)
    (hs : SyncPeerOk s) : SyncPeerOk (handleInvMsg env invVects p s).1 := by
  simp only [handleInvMsg]
  repeat' split
  all_goals first
    | exact hs
    | (intro q hq
       simp only [isSome_lookupA_updateA]
       simp only [] at hq
       exact hs q hq)

theorem spok_fetchHeadersToConnect (env : Env) (p : PeerId) (s : SMState)
    (hp : (lookupA s.peerStates p).isSome = true) (hs : SyncPeerOk s) :
    SyncPeerOk (fetchHeadersToConnect env p s).1 := by
  have hadopt : SyncPeerOk { s with syncPeer := some p } := by
    intro q hq
    have hpq : p = q := Option.some.inj hq
    simpa [← hpq] using hp
  simp only [fetchHeadersToConnect]
  split
  · split
    · exact spok_fetchHeaderBlocks env p _ hadopt
    · split
      · exact spok_of_frame (by simp) (fun q => by simp [isSome_lookupA_updateA]) hadopt
      · exact spok_of_frame (by simp) (fun q => by simp [isSome_lookupA_updateA]) hadopt
  · split
    · exact spok_fetchHeaderBlocks env p _ hs
    · split
      · exact spok_of_frame (by simp) (fun q => by simp [isSome_lookupA_updateA]) hs
      · exact spok_of_frame (by simp) (fun q => by simp [isSome_lookupA_updateA]) hs

theorem spok_handleHeadersMsg (env : Env) (headers : List BlockHeader) (p : PeerId)
    (s : SMState) (hs : SyncPeerOk s) : SyncPeerOk (handleHeadersMsg env headers p s).1 := by
  have hs1 : SyncPeerOk (updatePeerState env headers p s).1 :=
    spok_of_frame (updatePeerState_fst_syncPeer env headers p s)
      (fun q => by rw [updatePeerState_fst_peerStates]) hs
  have hs2 : SyncPeerOk { (updatePeerState env headers p s).1 with
      peerStates := updateA (updatePeerState env headers p s).1.peerStates p
        (fun ps => if ps.unconnectingHeaders > 0 then { ps with unconnectingHeaders := 0 }
          else ps) } :=
    spok_of_frame (by simp) (fun q => by simp [isSome_lookupA_updateA]) hs1
  simp only [handleHeadersMsg]
  split
  · exact hs
  · rename_i st hst
    have hp : (lookupA s.peerStates p).isSome = true := by rw [hst]; rfl
    split
    · exact spok_fetchHeaderBlocks env p s hs
    · split
      · exact spok_fetchHeadersToConnect env p s hp hs
      · split
        · exact hs
        · split
          · exact hs1
          · repeat' split
            all_goals first
              | exact hs2
              | exact spok_fetchHeaderBlocks env p _ hs2
              | exact spok_fetchBlocks env p _ _ hs2

theorem spok_handleNewPeerMsg (env : Env) (p : PeerId) (s : SMState)
    (hs : SyncPeerOk s) : SyncPeerOk (handleNewPeerMsg env p s).1 := by
  have hs1 : SyncPeerOk { s with
      peerStates := insertA s.peerStates p (PeerSyncState.mkNew (isSyncCandidate env p)) } := by
    intro q hq
    rw [lookupA_insertA]
    by_cases hqp : q = p
    · simp [hqp]
    · simp [hqp]
      exact hs q hq
  have hs1n : SyncPeerOk { s with
      peerStates := insertA s.peerStates p (PeerSyncState.mkNew (isSyncCandidate env p))
      syncPeer := none } := by
    intro q hq
    exact absurd hq (by simp)
  simp only [handleNewPeerMsg]
  repeat' split
  all_goals first
    | exact spok_startSync env _ hs1
    | exact spok_startSync env _ hs1n
    | exact spok_fetchHeaderBlocks env p _ hs1

theorem clearSyncPeerState_syncPeer (s : SMState) (p : PeerId) :
    (clearSyncPeerState s p).syncPeer = s.syncPeer := by
  unfold clearSyncPeerState
  split <;> simp

theorem clearSyncPeerState_lookup_ne (s : SMState) (p q : PeerId) (h : ¬ q = p) :
    lookupA (clearSyncPeerState s p).peerStates q = lookupA s.peerStates q := by
  unfold clearSyncPeerState
  split
  · rfl
  · simp [lookupA_eraseA, h]

theorem spok_handleDonePeerMsg (env : Env) (p : PeerId) (s : SMState)
    (hs : SyncPeerOk s) : SyncPeerOk (handleDonePeerMsg env p s).1 := by
  simp only [handleDonePeerMsg]
  split
  · apply spok_startSync
    intro q hq
    exact absurd hq (by simp)
  · rename_i hcond
    intro q hq
    have hqp : ¬ q = p := by
      intro he
      exact hcond (he ▸ hq)
    rw [clearSyncPeerState_lookup_ne s p q hqp]
    apply hs q
    rw [← clearSyncPeerState_syncPeer s p]
    exact hq

theorem spok_scanFold (env : Env) :
    ∀ (l : List PeerId) (sa : SMState × List Action), SyncPeerOk sa.1 →
      SyncPeerOk (l.foldl (scanStep env) sa).1 := by
  intro l
  induction l with
  | nil => intro sa h; exact h
  | cons q rest ih =>
    intro sa h
    apply ih
    simp only [scanStep]
    repeat' split
    all_goals first
      | exact h
      | exact spok_fetchHeaderBlocks env q sa.1 h

/-- C5 (amended): after every event handled by the message loop, whenever
`sync_peer` is set it is a key of `peer_states`.  The candidacy half of the
claim is false: the Headers-during-IBD adoption path (`fetchHeadersToConnect`)
sets the sending peer as sync peer without checking `sync_candidate` — see
the counterexample. -/
theorem C5_syncPeer_known_amended (env : Env) (s : SMState) (msg : Msg)
    (hs : SyncPeerOk s) : SyncPeerOk (messageStep env s msg).1 := by
  cases msg with
  | newPeer p => exact spok_handleNewPeerMsg env p s hs
  | txm h p => exact spok_handleTxMsg env h p s hs
  | blockm h p => exact spok_handleBlockMsg env h p s hs
  | invm invVects p => exact spok_handleInvMsg env invVects p s hs
  | headersm headers p => exact spok_handleHeadersMsg env headers p s hs
  | mempoolm p => exact hs
  | getBlocksm p => exact hs
  | ping p => exact hs
  | donePeer p => exact spok_handleDonePeerMsg env p s hs
  | getSyncPeer => exact hs
  | isCurrentm => exact hs
  | pausem => exact hs
  | minedBlock h =>
    simp only [messageStep, handleMinedBlockMsg]
    split <;> exact hs
  | fetchTick => exact spok_scanFold env _ (s, []) hs

/-- Environment for the C5 counterexample: IBD, and peer 1 is not a sync
candidate (no NODE_NETWORK bit); verack withheld so the fallback fetch is a
no-op. -/
def envC5x : Env :=
  { envW with ibd := true, nodeNetworkPeer := fun _ => false, verAck := fun _ => false }

/-- State for the C5 counterexample: peer 1 known with sync_candidate
false, no sync peer set. -/
def sC5x : SMState := { sEmpty with peerStates := [(1, PeerSyncState.mkNew false)] }

/-- C5 counterexample: a Headers message with an unknown parent during IBD
with no sync peer set adopts the **non-candidate** sender as sync peer —
the claim requires `peer_states[sync_peer].sync_candidate` to be true after
every event. -/
theorem C5_counterexample :
    sC5x.syncPeer = none ∧
    (lookupA sC5x.peerStates 1).map PeerSyncState.syncCandidate = some false ∧
    (handleHeadersMsg envC5x [⟨7, 6⟩] 1 sC5x).1.syncPeer = some 1 ∧
    (lookupA (handleHeadersMsg envC5x [⟨7, 6⟩] 1 sC5x).1.peerStates 1).map
        PeerSyncState.syncCandidate = some false := by
  refine ⟨rfl, rfl, ?_, ?_⟩ <;> rfl

/-- Witness for the amended C5 theorem at a concrete input. -/
theorem C5_syncPeer_known_amended_witness :
    SyncPeerOk (messageStep envW sC4 (Msg.newPeer 2)).1 := by
  apply C5_syncPeer_known_amended
  intro q hq
  exact absurd hq (by simp [sC4, sEmpty])


/-! ## C1: coupling of the global and per-peer requested-block indices -/

/-- The claimed invariant: every global in-flight block is in its owner's
per-peer set, and every per-peer in-flight block is globally mapped to that
peer. -/
def ReqBlocksInv (s : SMState) : Prop :=
  (∀ y q, s.requestedBlocks y = some q →
      ∃ ps, lookupA s.peerStates q = some ps ∧ y ∈ ps.requestedBlocks) ∧
  (∀ q ps y, lookupA s.peerStates q = some ps → y ∈ ps.requestedBlocks →
      s.requestedBlocks y = some q)

/-- The invariant as maintained during a fetch walk for peer `p`: `rb` is
the evolving global map, `pb` the evolving per-peer set of `p`; all other
peers' sets are those of `s`. -/
def AccInv (s : SMState) (p : PeerId) (rb : Hash → Option PeerId) (pb : Finset Hash) : Prop :=
  (∀ y q, rb y = some q → (q = p ∧ y ∈ pb) ∨
      (¬ q = p ∧ ∃ ps, lookupA s.peerStates q = some ps ∧ y ∈ ps.requestedBlocks)) ∧
  (∀ y, y ∈ pb → rb y = some p) ∧
  (∀ q ps y, lookupA s.peerStates q = some ps → ¬ q = p → y ∈ ps.requestedBlocks →
      rb y = some q)

theorem AccInv_init (s : SMState) (p : PeerId) (st : PeerSyncState)
    (hlk : lookupA s.peerStates p = some st) (h : ReqBlocksInv s) :
    AccInv s p s.requestedBlocks st.requestedBlocks := by
  refine ⟨?_, ?_, ?_⟩
  · intro y q hq
    obtain ⟨ps, hps, hmem⟩ := h.1 y q hq
    by_cases hqp : q = p
    · left
      refine ⟨hqp, ?_⟩
      rw [hqp, hlk] at hps
      injection hps with he
      rw [he]
      exact hmem
    · exact Or.inr ⟨hqp, ps, hps, hmem⟩
  · intro y hmem
    exact h.2 p st y hlk hmem
  · intro q ps y hps _ hmem
    exact h.2 q ps y hps hmem

theorem AccInv_step (s : SMState) (p : PeerId) (rb : Hash → Option PeerId) (pb : Finset Hash)
    (x : Hash) (h : AccInv s p rb pb) (hx : rb x = none ∨ rb x = some p) :
    AccInv s p (fun y => if y = x then some p else rb y) (insert x pb) := by
  obtain ⟨h1, h2, h3⟩ := h
  refine ⟨?_, ?_, ?_⟩
  · intro y q hq
    simp only [] at hq
    by_cases hyx : y = x
    · rw [if_pos hyx] at hq
      injection hq with he
      left
      refine ⟨he.symm, ?_⟩
      rw [hyx]
      exact Finset.mem_insert_self x pb
    · rw [if_neg hyx] at hq
      rcases h1 y q hq with ⟨hqp, hm⟩ | ⟨hqp, ps, hps, hm⟩
      · exact Or.inl ⟨hqp, Finset.mem_insert_of_mem hm⟩
      · exact Or.inr ⟨hqp, ps, hps, hm⟩
  · intro y hm
    show (if y = x then some p else rb y) = some p
    rcases Finset.mem_insert.mp hm with he | hm2
    · rw [if_pos he]
    · by_cases hyx : y = x
      · rw [if_pos hyx]
      · rw [if_neg hyx]
        exact h2 y hm2
  · intro q ps y hps hqp hm
    show (if y = x then some p else rb y) = some q
    have hold := h3 q ps y hps hqp hm
    by_cases hyx : y = x
    · rw [hyx] at hold
      rcases hx with hx0 | hxp
      · rw [hx0] at hold
        cases hold
      · rw [hxp] at hold
        injection hold with he
        exact absurd he.symm hqp
    · rw [if_neg hyx]
      exact hold

theorem ReqBlocksInv_writeback (s : SMState) (p : PeerId) (st : PeerSyncState)
    (rb : Hash → Option PeerId) (pb : Finset Hash)
    (hlk : lookupA s.peerStates p = some st) (hacc : AccInv s p rb pb) :
    ∀ s' : SMState, s'.requestedBlocks = rb →
      s'.peerStates = updateA s.peerStates p (fun ps => { ps with requestedBlocks := pb }) →
      ReqBlocksInv s' := by
  intro s' hrb hps
  obtain ⟨h1, h2, h3⟩ := hacc
  constructor
  · intro y q hq
    rw [hrb] at hq
    rcases h1 y q hq with ⟨hqp, hm⟩ | ⟨hqp, ps, hpsq, hm⟩
    · refine ⟨{ st with requestedBlocks := pb }, ?_, hm⟩
      rw [hps, lookupA_updateA, if_pos hqp]
      rw [hqp, hlk]
      rfl
    · refine ⟨ps, ?_, hm⟩
      rw [hps, lookupA_updateA, if_neg hqp]
      exact hpsq
  · intro q ps y hpsq hm
    rw [hrb]
    rw [hps, lookupA_updateA] at hpsq
    by_cases hqp : q = p
    · rw [if_pos hqp, hqp, hlk] at hpsq
      have hpseq : { st with requestedBlocks := pb } = ps := by
        injection hpsq
      rw [← hpseq] at hm
      have hm2 : y ∈ pb := hm
      rw [h2 y hm2, hqp]
    · rw [if_neg hqp] at hpsq
      exact h3 q ps y hpsq hqp hm

/-- Transfer: the invariant depends only on the two request indices. -/
theorem ReqBlocksInv_transfer {s s' : SMState}
    (hrb : s'.requestedBlocks = s.requestedBlocks)
    (hps : s'.peerStates = s.peerStates) (h : ReqBlocksInv s) : ReqBlocksInv s' := by
  constructor
  · intro y q hq
    rw [hps]
    exact h.1 y q (by rw [← hrb]; exact hq)
  · intro q ps y hpsq hm
    rw [hrb]
    exact h.2 q ps y (by rw [← hps]; exact hpsq) hm

/-- Transfer through an `updateA` whose function leaves `requestedBlocks`
untouched. -/
theorem ReqBlocksInv_updateA {s : SMState} (p : PeerId) (f : PeerSyncState → PeerSyncState)
    (h : ReqBlocksInv s) :
    ∀ s' : SMState, s'.requestedBlocks = s.requestedBlocks →
      s'.peerStates = updateA s.peerStates p f →
      (∀ ps, (f ps).requestedBlocks = ps.requestedBlocks) → ReqBlocksInv s' := by
  intro s' hrb hps hf
  constructor
  · intro y q hq
    rw [hrb] at hq
    obtain ⟨ps, hpsq, hm⟩ := h.1 y q hq
    rw [hps, lookupA_updateA]
    by_cases hqp : q = p
    · refine ⟨f ps, ?_, ?_⟩
      · rw [if_pos hqp, hpsq]
        rfl
      · rw [hf]
        exact hm
    · exact ⟨ps, by rw [if_neg hqp]; exact hpsq, hm⟩
  · intro q ps y hpsq hm
    rw [hrb]
    rw [hps, lookupA_updateA] at hpsq
    by_cases hqp : q = p
    · rw [if_pos hqp] at hpsq
      cases hlk2 : lookupA s.peerStates q with
      | none =>
        rw [hlk2] at hpsq
        cases hpsq
      | some ps0 =>
        rw [hlk2] at hpsq
        simp only [Option.map] at hpsq
        have hfe : f ps0 = ps := by injection hpsq
        have hm2 : y ∈ ps0.requestedBlocks := by
          rw [← hfe, hf] at hm
          exact hm
        exact h.2 q ps0 y hlk2 hm2
    · rw [if_neg hqp] at hpsq
      exact h.2 q ps y hpsq hm


theorem processSlab_AccInv (env : Env) (p : PeerId) (s : SMState) (wEnd : Int) :
    ∀ (l : List BlockIndex) (acc : FetchAcc),
      AccInv s p acc.requestedBlocks acc.peerBlocks →
      AccInv s p (processSlab env p wEnd l acc).1.requestedBlocks
        (processSlab env p wEnd l acc).1.peerBlocks := by
  intro l
  induction l with
  | nil => intro acc h; exact h
  | cons pindex rest ih =>
    intro acc h
    simp only [processSlab]
    split
    · exact h
    · split
      · exact ih _ h
      · split
        · exact ih _ h
        · rename_i hnone
          split
          · repeat' split
            all_goals exact h
          · have hstep := AccInv_step s p acc.requestedBlocks acc.peerBlocks pindex.hash h
              (Or.inl hnone)
            split
            · exact hstep
            · exact ih _ hstep

theorem fetchLoop_AccInv (env : Env) (p : PeerId) (s : SMState) (bk : BlockIndex)
    (maxH wEnd : Int) :
    ∀ (fuel : Nat) (wh : Int) (acc : FetchAcc),
      AccInv s p acc.requestedBlocks acc.peerBlocks →
      AccInv s p (fetchLoop env p bk maxH wEnd fuel wh acc).requestedBlocks
        (fetchLoop env p bk maxH wEnd fuel wh acc).peerBlocks := by
  intro fuel
  induction fuel with
  | zero => intro wh acc h; exact h
  | succ n ih =>
    intro wh acc h
    simp only [fetchLoop]
    split
    · split
      · exact h
      · split
        · exact processSlab_AccInv env p s wEnd _ acc h
        · exact ih _ _ (processSlab_AccInv env p s wEnd _ acc h)
    · exact h

/-- `fetchHeaderBlocks` preserves the requested-blocks invariant. -/
theorem reqinv_fetchHeaderBlocks (env : Env) (p : PeerId) (s : SMState)
    (h : ReqBlocksInv s) : ReqBlocksInv (fetchHeaderBlocks env p s).1 := by
  simp only [fetchHeaderBlocks]
  split
  · exact h
  · split
    · exact h
    · split
      · exact h
      · rename_i peerState hlk
        split
        · exact h
        · split
          · exact h
          · split
            · exact h
            · split
              · exact h
              · split
                · exact h
                · rename_i pindexWalk bestKnown acts hsp hcw1 hcw2
                  exact ReqBlocksInv_writeback s p peerState _ _ hlk
                    (fetchLoop_AccInv env p s bestKnown _ _ _ _ _
                      (AccInv_init s p peerState hlk h)) _ rfl rfl

theorem fetchBlocksLoop_AccInv (s : SMState) (p : PeerId) :
    ∀ (l : List BlockIndex) (rb : Hash → Option PeerId) (pb : Finset Hash)
      (gd : List InvVect),
      AccInv s p rb pb →
      (∀ x, rb x = s.requestedBlocks x ∨ rb x = some p) →
      (∀ b ∈ l, s.requestedBlocks b.hash = none) →
      AccInv s p (fetchBlocksLoop p l rb pb gd).1 (fetchBlocksLoop p l rb pb gd).2.1 := by
  intro l
  induction l with
  | nil => intro rb pb gd h _ _; exact h
  | cons b rest ih =>
    intro rb pb gd h haux hl
    simp only [fetchBlocksLoop]
    split
    · exact h
    · have hx : rb b.hash = none ∨ rb b.hash = some p := by
        rcases haux b.hash with h1 | h1
        · rw [h1]
          exact Or.inl (hl b (List.mem_cons_self b rest))
        · exact Or.inr h1
      apply ih
      · exact AccInv_step s p rb pb b.hash h hx
      · intro x
        by_cases hxb : x = b.hash
        · right
          simp [hxb]
        · rcases haux x with h1 | h1
          · left
            simp [hxb, h1]
          · right
            simp [hxb, h1]
      · intro c hc
        exact hl c (List.mem_cons_of_mem b hc)

/-- `fetchBlocks` preserves the invariant when every candidate block is not
already in flight (which `blocksToFetch` guarantees). -/
theorem reqinv_fetchBlocks (env : Env) (p : PeerId) (v : List BlockIndex) (s : SMState)
    (hv : ∀ b ∈ v, s.requestedBlocks b.hash = none)
    (h : ReqBlocksInv s) : ReqBlocksInv (fetchBlocks env p v s).1 := by
  simp only [fetchBlocks]
  split
  · exact h
  · rename_i ps hlk
    exact ReqBlocksInv_writeback s p ps _ _ hlk
      (fetchBlocksLoop_AccInv s p v s.requestedBlocks ps.requestedBlocks []
        (AccInv_init s p ps hlk h) (fun x => Or.inl rfl) hv) _ rfl rfl

/-- Every block collected by the `blocksToFetch` walk is not in flight. -/
theorem blocksToFetchNode_sound (env : Env) (rb : Hash → Option PeerId) :
    (b : BlockIndex) → (acc : List BlockIndex) →
    (∀ x ∈ acc, rb x.hash = none) →
    ∀ x ∈ (blocksToFetchNode env rb b acc).1, rb x.hash = none
  | BlockIndex.node hh ht w d v pr, acc, hacc => by
    simp only [blocksToFetchNode]
    split
    · have hacc2 : ∀ x ∈ (if ¬ (BlockIndex.node hh ht w d v pr).hasData ∧
          rb (BlockIndex.node hh ht w d v pr).hash = none
          then BlockIndex.node hh ht w d v pr :: acc else acc), rb x.hash = none := by
        split
        · rename_i hcnd
          intro x hx
          rcases List.mem_cons.mp hx with he | hm
          · rw [he]
            exact hcnd.2
          · exact hacc x hm
        · exact hacc
      match pr with
      | none => exact hacc2
      | some pb => exact blocksToFetchNode_sound env rb pb _ hacc2
    · exact hacc

theorem blocksToFetchLoop_sound (env : Env) (rb : Hash → Option PeerId)
    (ob : Option BlockIndex) :
    ∀ x ∈ (blocksToFetchLoop env rb ob []).1, rb x.hash = none := by
  match ob with
  | none => intro x hx; cases hx
  | some b => exact blocksToFetchNode_sound env rb b [] (fun x hx => absurd hx (by simp))

theorem reqinv_clearSyncPeerState (s : SMState) (p : PeerId) (h : ReqBlocksInv s) :
    ReqBlocksInv (clearSyncPeerState s p) := by
  unfold clearSyncPeerState
  split
  · exact h
  · rename_i st hlk
    constructor
    · intro y q hq
      simp only [] at hq
      by_cases hy : y ∈ st.requestedBlocks
      · rw [if_pos hy] at hq
        cases hq
      · rw [if_neg hy] at hq
        obtain ⟨ps, hps, hm⟩ := h.1 y q hq
        have hqp : ¬ q = p := by
          intro he
          rw [he, hlk] at hps
          injection hps with he2
          exact hy (he2 ▸ hm)
        refine ⟨ps, ?_, hm⟩
        show lookupA (eraseA s.peerStates p) q = some ps
        rw [lookupA_eraseA, if_neg hqp]
        exact hps
    · intro q ps y hpsq hm
      have hpsq2 : lookupA (eraseA s.peerStates p) q = some ps := hpsq
      rw [lookupA_eraseA] at hpsq2
      by_cases hqp : q = p
      · rw [if_pos hqp] at hpsq2
        cases hpsq2
      · rw [if_neg hqp] at hpsq2
        have hres := h.2 q ps y hpsq2 hm
        have hybh : ¬ y ∈ st.requestedBlocks := by
          intro hy
          have hp2 := h.2 p st y hlk hy
          rw [hp2] at hres
          injection hres with he
          exact hqp he.symm
        show (if y ∈ st.requestedBlocks then none else s.requestedBlocks y) = some q
        rw [if_neg hybh]
        exact hres

theorem ReqBlocksInv_deleteBlock (s : SMState) (p : PeerId) (st : PeerSyncState) (bh : Hash)
    (hlk : lookupA s.peerStates p = some st) (hin : bh ∈ st.requestedBlocks)
    (h : ReqBlocksInv s) :
    ∀ s' : SMState,
      s'.requestedBlocks = (fun y => if y = bh then none else s.requestedBlocks y) →
      s'.peerStates = updateA s.peerStates p
        (fun ps => { ps with requestedBlocks := ps.requestedBlocks.erase bh }) →
      ReqBlocksInv s' := by
  intro s' hrb hps
  constructor
  · intro y q hq
    rw [hrb] at hq
    simp only [] at hq
    by_cases hyb : y = bh
    · rw [if_pos hyb] at hq
      cases hq
    · rw [if_neg hyb] at hq
      obtain ⟨ps, hpsq, hm⟩ := h.1 y q hq
      rw [hps, lookupA_updateA]
      by_cases hqp : q = p
      · have hst : st = ps := by
          rw [hqp, hlk] at hpsq
          injection hpsq
        refine ⟨{ st with requestedBlocks := st.requestedBlocks.erase bh }, ?_, ?_⟩
        · rw [if_pos hqp, hqp, hlk]
          rfl
        · exact Finset.mem_erase.mpr ⟨hyb, hst ▸ hm⟩
      · exact ⟨ps, by rw [if_neg hqp]; exact hpsq, hm⟩
  · intro q ps y hpsq hm
    rw [hrb]
    show (if y = bh then none else s.requestedBlocks y) = some q
    rw [hps, lookupA_updateA] at hpsq
    by_cases hqp : q = p
    · rw [if_pos hqp, hqp, hlk] at hpsq
      simp only [Option.map] at hpsq
      have he : { st with requestedBlocks := st.requestedBlocks.erase bh } = ps := by
        injection hpsq
      rw [← he] at hm
      have hm2 : y ∈ st.requestedBlocks.erase bh := hm
      have hyb : ¬ y = bh := (Finset.mem_erase.mp hm2).1
      rw [if_neg hyb]
      rw [hqp]
      exact h.2 p st y hlk (Finset.mem_erase.mp hm2).2
    · rw [if_neg hqp] at hpsq
      have hres := h.2 q ps y hpsq hm
      have hyb : ¬ y = bh := by
        intro he
        rw [he] at hres
        have hp2 := h.2 p st bh hlk hin
        rw [hp2] at hres
        injection hres with he2
        exact hqp he2.symm
      rw [if_neg hyb]
      exact hres

theorem reqinv_insert_fresh (s : SMState) (p : PeerId) (v : PeerSyncState)
    (hv : v.requestedBlocks = ∅)
    (hfresh : lookupA s.peerStates p = none) (h : ReqBlocksInv s) :
    ∀ s' : SMState, s'.requestedBlocks = s.requestedBlocks →
      s'.peerStates = insertA s.peerStates p v → ReqBlocksInv s' := by
  intro s' hrb hps
  constructor
  · intro y q hq
    rw [hrb] at hq
    obtain ⟨ps, hpsq, hm⟩ := h.1 y q hq
    have hqp : ¬ q = p := by
      intro he
      rw [he, hfresh] at hpsq
      cases hpsq
    refine ⟨ps, ?_, hm⟩
    rw [hps, lookupA_insertA, if_neg hqp]
    exact hpsq
  · intro q ps y hpsq hm
    rw [hrb]
    rw [hps, lookupA_insertA] at hpsq
    by_cases hqp : q = p
    · rw [if_pos hqp] at hpsq
      injection hpsq with he
      rw [← he, hv] at hm
      exact absurd hm (Finset.not_mem_empty y)
    · rw [if_neg hqp] at hpsq
      exact h.2 q ps y hpsq hm

theorem reqinv_fetchHeadersToConnect (env : Env) (p : PeerId) (s : SMState)
    (h : ReqBlocksInv s) : ReqBlocksInv (fetchHeadersToConnect env p s).1 := by
  simp only [fetchHeadersToConnect]
  split
  · split
    · exact reqinv_fetchHeaderBlocks env p _ (ReqBlocksInv_transfer rfl rfl h)
    · split
      · exact ReqBlocksInv_updateA p _ h _ rfl rfl (fun ps => rfl)
      · exact ReqBlocksInv_updateA p _ h _ rfl rfl (fun ps => rfl)
  · split
    · exact reqinv_fetchHeaderBlocks env p _ h
    · split
      · exact ReqBlocksInv_updateA p _ h _ rfl rfl (fun ps => rfl)
      · exact ReqBlocksInv_updateA p _ h _ rfl rfl (fun ps => rfl)

theorem reqinv_handleHeadersMsg (env : Env) (headers : List BlockHeader) (p : PeerId)
    (s : SMState) (h : ReqBlocksInv s) : ReqBlocksInv (handleHeadersMsg env headers p s).1 := by
  simp only [handleHeadersMsg]
  split
  · exact h
  · rename_i st hst
    split
    · exact reqinv_fetchHeaderBlocks env p s h
    · split
      · exact reqinv_fetchHeadersToConnect env p s h
      · split
        · exact h
        · have h1 : ReqBlocksInv (updatePeerState env headers p s).1 :=
            ReqBlocksInv_transfer (updatePeerState_fst_requestedBlocks env headers p s)
              (updatePeerState_fst_peerStates env headers p s) h
          split
          · exact h1
          · have h2 : ReqBlocksInv { (updatePeerState env headers p s).1 with
                peerStates := updateA (updatePeerState env headers p s).1.peerStates p
                  (fun ps => if ps.unconnectingHeaders > 0 then
                    { ps with unconnectingHeaders := 0 } else ps) } :=
              ReqBlocksInv_updateA p _ h1 _ rfl rfl (fun ps => by split <;> rfl)
            repeat' split
            all_goals first
              | exact h2
              | exact reqinv_fetchHeaderBlocks env p _ h2
              | exact reqinv_fetchBlocks env p _ _ (blocksToFetchLoop_sound env _ _) h2

theorem reqinv_handleTxMsg (env : Env) (txHash : Hash) (p : PeerId) (s : SMState)
    (h : ReqBlocksInv s) : ReqBlocksInv (handleTxMsg env txHash p s).1 := by
  have hupd : ReqBlocksInv (updateTxRequestState s p txHash
      (env.processTransaction txHash s.rejectedTxns p).2.2.1) :=
    ReqBlocksInv_updateA p _ h _ rfl rfl (fun ps => rfl)
  simp only [handleTxMsg]
  repeat' split
  all_goals first
    | exact h
    | exact hupd

theorem reqinv_handleInvMsg (env : Env) (invVects : List InvVect) (p : PeerId)
    (s : SMState) (h : ReqBlocksInv s) : ReqBlocksInv (handleInvMsg env invVects p s).1 := by
  simp only [handleInvMsg]
  repeat' split
  all_goals first
    | exact h
    | exact ReqBlocksInv_updateA p _ h _ rfl rfl (fun ps => rfl)

theorem reqinv_handleBlockMsg (env : Env) (blockHash : Hash) (p : PeerId) (s : SMState)
    (hreg : env.regtest = false) (h : ReqBlocksInv s) :
    ReqBlocksInv (handleBlockMsg env blockHash p s).1 := by
  simp only [handleBlockMsg]
  split
  · exact h
  · rename_i st hlk
    split
    · exact h
    · rename_i hguard
      have hin : blockHash ∈ st.requestedBlocks := by
        by_contra hc
        exact hguard ⟨hc, by simp [hreg]⟩
      have hs1 := ReqBlocksInv_deleteBlock s p st blockHash hlk hin h
        { s with
          peerStates := updateA s.peerStates p
            (fun ps => { ps with requestedBlocks := ps.requestedBlocks.erase blockHash })
          requestedBlocks := fun y => if y = blockHash then none else s.requestedBlocks y
          stallingSince := fun q => if q = p then 0 else s.stallingSince q } rfl rfl
      repeat' split
      all_goals first
        | exact ReqBlocksInv_transfer rfl rfl hs1
        | exact reqinv_fetchHeaderBlocks env p _ (ReqBlocksInv_transfer rfl rfl hs1)

theorem reqinv_handleNewPeerMsg (env : Env) (p : PeerId) (s : SMState)
    (hfresh : lookupA s.peerStates p = none) (h : ReqBlocksInv s) :
    ReqBlocksInv (handleNewPeerMsg env p s).1 := by
  have hs1 := reqinv_insert_fresh s p (PeerSyncState.mkNew (isSyncCandidate env p)) rfl
    hfresh h
    { s with peerStates := insertA s.peerStates p (PeerSyncState.mkNew (isSyncCandidate env p)) }
    rfl rfl
  simp only [handleNewPeerMsg]
  repeat' split
  all_goals first
    | exact ReqBlocksInv_transfer (startSync_fst_requestedBlocks env _)
        (startSync_fst_peerStates env _) (ReqBlocksInv_transfer rfl rfl hs1)
    | exact reqinv_fetchHeaderBlocks env p _ (ReqBlocksInv_transfer rfl rfl hs1)

theorem reqinv_handleDonePeerMsg (env : Env) (p : PeerId) (s : SMState)
    (h : ReqBlocksInv s) : ReqBlocksInv (handleDonePeerMsg env p s).1 := by
  have hc := reqinv_clearSyncPeerState s p h
  simp only [handleDonePeerMsg]
  split
  · exact ReqBlocksInv_transfer (startSync_fst_requestedBlocks env _)
      (startSync_fst_peerStates env _) (ReqBlocksInv_transfer rfl rfl hc)
  · exact hc

theorem reqinv_scanFold (env : Env) :
    ∀ (l : List PeerId) (sa : SMState × List Action), ReqBlocksInv sa.1 →
      ReqBlocksInv (l.foldl (scanStep env) sa).1 := by
  intro l
  induction l with
  | nil => intro sa h; exact h
  | cons q rest ih =>
    intro sa h
    apply ih
    simp only [scanStep]
    repeat' split
    all_goals first
      | exact h
      | exact reqinv_fetchHeaderBlocks env q sa.1 h

/-- C1 (amended): the requested-blocks coupling invariant is preserved by
every event handled by the message loop, provided the chain is **not** the
regression-test network (there an unrequested duplicate block from a second
peer deletes the owner's global entry while the owner's per-peer set keeps
the hash — see the counterexample) and NewPeer events carry peers that are
not already in `peer_states` (which the peer server guarantees: a Go peer
pointer is registered once). -/
theorem C1_requested_blocks_invariant_amended (env : Env) (s : SMState) (msg : Msg)
    (hreg : env.regtest = false)
    (hfresh : ∀ p, msg = Msg.newPeer p → lookupA s.peerStates p = none)
    (hinv : ReqBlocksInv s) : ReqBlocksInv (messageStep env s msg).1 := by
  cases msg with
  | newPeer p => exact reqinv_handleNewPeerMsg env p s (hfresh p rfl) hinv
  | txm h p => exact reqinv_handleTxMsg env h p s hinv
  | blockm h p => exact reqinv_handleBlockMsg env h p s hreg hinv
  | invm invVects p => exact reqinv_handleInvMsg env invVects p s hinv
  | headersm headers p => exact reqinv_handleHeadersMsg env headers p s hinv
  | mempoolm p => exact hinv
  | getBlocksm p => exact hinv
  | ping p => exact hinv
  | donePeer p => exact reqinv_handleDonePeerMsg env p s hinv
  | getSyncPeer => exact hinv
  | isCurrentm => exact hinv
  | pausem => exact hinv
  | minedBlock h =>
    simp only [messageStep, handleMinedBlockMsg]
    split <;> exact hinv
  | fetchTick => exact reqinv_scanFold env _ (s, []) hinv

/-- Witness for the amended C1 theorem at a concrete input. -/
theorem C1_requested_blocks_invariant_amended_witness :
    ReqBlocksInv (messageStep envW sEmpty (Msg.donePeer 0)).1 := by
  apply C1_requested_blocks_invariant_amended envW sEmpty (Msg.donePeer 0) rfl
  · intro p hp
    cases hp
  · constructor
    · intro y q hq
      exact Option.noConfusion hq
    · intro q ps y hq hm
      exact Option.noConfusion hq

/-- Environment for the C1 counterexample: regression-test chain; the
sender is not localhost so the trailing block fetch is a no-op. -/
def envC1x : Env :=
  { envW with regtest := true, localhostPeer := fun _ => false }

/-- State for the C1 counterexample: block 9 is in flight from peer 1 (both
indices agree), peer 2 is connected. -/
def sC1x : SMState :=
  { sEmpty with
    requestedBlocks := fun y => if y = 9 then some 1 else none
    peerStates := [(1, { PeerSyncState.mkNew true with requestedBlocks := {9} }),
      (2, PeerSyncState.mkNew true)] }

/-- C1 counterexample: in regression-test mode, an **unrequested** block 9
arriving from peer 2 deletes the global entry owned by peer 1 while peer
1's per-peer set still holds hash 9, so the claimed invariant fails after
that event although it held before. -/
theorem C1_counterexample :
    ReqBlocksInv sC1x ∧
    ¬ ReqBlocksInv (messageStep envC1x sC1x (Msg.blockm 9 2)).1 := by
  constructor
  · constructor
    · intro y q hq
      have hq2 : (if y = 9 then some 1 else none : Option PeerId) = some q := hq
      by_cases hy : y = 9
      · rw [if_pos hy] at hq2
        injection hq2 with he
        refine ⟨{ PeerSyncState.mkNew true with requestedBlocks := {9} }, ?_, ?_⟩
        · rw [← he]
          rfl
        · rw [hy]
          decide
      · rw [if_neg hy] at hq2
        cases hq2
    · intro q ps y hq hm
      have hq2 : (if (1 : PeerId) = q then
          some ({ PeerSyncState.mkNew true with requestedBlocks := {9} } : PeerSyncState)
          else if (2 : PeerId) = q then some (PeerSyncState.mkNew true) else none) = some ps := hq
      by_cases h1 : (1 : PeerId) = q
      · rw [if_pos h1] at hq2
        injection hq2 with he
        rw [← he] at hm
        have hy : y ∈ ({9} : Finset Hash) := hm
        have hy9 : y = 9 := Finset.mem_singleton.mp hy
        show (if y = 9 then some 1 else none : Option PeerId) = some q
        rw [if_pos hy9, h1]
      · rw [if_neg h1] at hq2
        by_cases h2 : (2 : PeerId) = q
        · rw [if_pos h2] at hq2
          injection hq2 with he
          rw [← he] at hm
          exact absurd hm (Finset.not_mem_empty y)
        · rw [if_neg h2] at hq2
          cases hq2
  · intro hinv
    have hlk1 : lookupA (messageStep envC1x sC1x (Msg.blockm 9 2)).1.peerStates 1 =
        some { PeerSyncState.mkNew true with requestedBlocks := {9} } := rfl
    have hmem : (9 : Hash) ∈ ({ PeerSyncState.mkNew true with
        requestedBlocks := ({9} : Finset Hash) } : PeerSyncState).requestedBlocks := by
      decide
    have hcontra := hinv.2 1 _ 9 hlk1 hmem
    have hnone : (messageStep envC1x sC1x (Msg.blockm 9 2)).1.requestedBlocks 9 = none := rfl
    rw [hnone] at hcontra
    cases hcontra

theorem drainLoop_nofull (env : Env) (rb : Hash → Option PeerId) (p : PeerId) :
    ∀ (queue : List InvVect) (acc : DrainAcc),
      acc.requestedTxns.card + queue.length < maxRequestedTxns →
      acc.numRequested + queue.length < maxInvPerMsg →
      (drainLoop env rb p queue acc).1 = [] ∧
      (∀ x ∈ acc.requestedTxns, x ∈ (drainLoop env rb p queue acc).2.requestedTxns) ∧
      (∀ iv ∈ queue, iv.type = InvType.txType →
        iv.hash ∈ (drainLoop env rb p queue acc).2.requestedTxns) := by
  intro queue
  induction queue with
  | nil =>
    intro acc h1 h2
    refine ⟨rfl, ?_, ?_⟩
    · intro x hx
      exact hx
    · intro iv hiv
      exact absurd hiv (List.not_mem_nil iv)
  | cons iv rest ih =>
    intro acc h1 h2
    simp only [List.length_cons] at h1 h2
    obtain ⟨ty, hsh⟩ := iv
    cases ty with
    | blockType =>
      simp only [drainLoop]
      split
      · rw [if_neg (show ¬ acc.numRequested ≥ maxInvPerMsg by omega)]
        obtain ⟨e1, e3, e4⟩ := ih { acc with
            acts := acc.acts ++ [Action.pushGetHeaders p env.indexBestHeader.hash hsh] }
          (show acc.requestedTxns.card + rest.length < maxRequestedTxns by omega)
          (show acc.numRequested + rest.length < maxInvPerMsg by omega)
        refine ⟨e1, e3, ?_⟩
        intro jv hjv hty
        rcases List.mem_cons.mp hjv with he | hm
        · rw [he] at hty
          cases hty
        · exact e4 jv hm hty
      · rw [if_neg (show ¬ acc.numRequested ≥ maxInvPerMsg by omega)]
        obtain ⟨e1, e3, e4⟩ := ih acc (by omega) (by omega)
        refine ⟨e1, e3, ?_⟩
        intro jv hjv hty
        rcases List.mem_cons.mp hjv with he | hm
        · rw [he] at hty
          cases hty
        · exact e4 jv hm hty
    | otherType =>
      simp only [drainLoop]
      rw [if_neg (show ¬ acc.numRequested ≥ maxInvPerMsg by omega)]
      obtain ⟨e1, e3, e4⟩ := ih acc (by omega) (by omega)
      refine ⟨e1, e3, ?_⟩
      intro jv hjv hty
      rcases List.mem_cons.mp hjv with he | hm
      · rw [he] at hty
        cases hty
      · exact e4 jv hm hty
    | txType =>
      by_cases hmem : hsh ∈ acc.requestedTxns
      · simp only [drainLoop]
        rw [if_neg (not_not_intro hmem)]
        rw [if_neg (show ¬ acc.numRequested ≥ maxInvPerMsg by omega)]
        obtain ⟨e1, e3, e4⟩ := ih acc (by omega) (by omega)
        refine ⟨e1, e3, ?_⟩
        intro jv hjv hty
        rcases List.mem_cons.mp hjv with he | hm
        · rw [he]
          exact e3 hsh hmem
        · exact e4 jv hm hty
      · have hci := Finset.card_insert_of_not_mem hmem
        have hlm : limitMap (insert hsh acc.requestedTxns) maxRequestedTxns =
            insert hsh acc.requestedTxns := by
          unfold limitMap
          rw [if_neg]
          omega
        simp only [drainLoop]
        rw [if_pos hmem, hlm]
        rw [if_neg (show ¬ acc.numRequested + 1 ≥ maxInvPerMsg by omega)]
        obtain ⟨e1, e3, e4⟩ := ih { acc with
            requestedTxns := insert hsh acc.requestedTxns
            peerTxns := insert hsh acc.peerTxns
            gdmsg := acc.gdmsg ++ [⟨InvType.txType, hsh⟩]
            numRequested := acc.numRequested + 1 }
          (show (insert hsh acc.requestedTxns).card + rest.length < maxRequestedTxns by omega)
          (show acc.numRequested + 1 + rest.length < maxInvPerMsg by omega)
        refine ⟨e1, ?_, ?_⟩
        · intro x hx
          exact e3 x (Finset.mem_insert_of_mem hx)
        · intro jv hjv hty
          rcases List.mem_cons.mp hjv with he | hm
          · rw [he]
            exact e3 hsh (Finset.mem_insert_self hsh acc.requestedTxns)
          · exact e4 jv hm hty

theorem drainLoop_allpresent (env : Env) (rb : Hash → Option PeerId) (p : PeerId) :
    ∀ (queue : List InvVect) (acc : DrainAcc),
      (∀ iv ∈ queue, iv.type = InvType.txType → iv.hash ∈ acc.requestedTxns) →
      acc.numRequested < maxInvPerMsg →
      (drainLoop env rb p queue acc).1 = [] ∧
      (drainLoop env rb p queue acc).2.requestedTxns = acc.requestedTxns ∧
      (drainLoop env rb p queue acc).2.peerTxns = acc.peerTxns ∧
      (drainLoop env rb p queue acc).2.numRequested = acc.numRequested := by
  intro queue
  induction queue with
  | nil =>
    intro acc hall hnr
    exact ⟨rfl, rfl, rfl, rfl⟩
  | cons iv rest ih =>
    intro acc hall hnr
    obtain ⟨ty, hsh⟩ := iv
    cases ty with
    | blockType =>
      simp only [drainLoop]
      split
      · rw [if_neg (show ¬ acc.numRequested ≥ maxInvPerMsg by omega)]
        obtain ⟨e1, e2, e3, e4⟩ := ih { acc with
            acts := acc.acts ++ [Action.pushGetHeaders p env.indexBestHeader.hash hsh] }
          (fun jv hjv hty => hall jv (List.mem_cons_of_mem _ hjv) hty) hnr
        exact ⟨e1, e2, e3, e4⟩
      · rw [if_neg (show ¬ acc.numRequested ≥ maxInvPerMsg by omega)]
        exact ih acc (fun jv hjv hty => hall jv (List.mem_cons_of_mem _ hjv) hty) hnr
    | otherType =>
      simp only [drainLoop]
      rw [if_neg (show ¬ acc.numRequested ≥ maxInvPerMsg by omega)]
      exact ih acc (fun jv hjv hty => hall jv (List.mem_cons_of_mem _ hjv) hty) hnr
    | txType =>
      have hmem : hsh ∈ acc.requestedTxns :=
        hall ⟨InvType.txType, hsh⟩ (List.mem_cons_self _ _) rfl
      simp only [drainLoop]
      rw [if_neg (not_not_intro hmem)]
      rw [if_neg (show ¬ acc.numRequested ≥ maxInvPerMsg by omega)]
      exact ih acc (fun jv hjv hty => hall jv (List.mem_cons_of_mem _ hjv) hty) hnr

theorem foldl_fst_length_le {α β : Type} (f : List α × β → InvVect → List α × β)
    (hf : ∀ acc iv, (f acc iv).1.length ≤ acc.1.length + 1) :
    ∀ (ivs : List InvVect) (acc : List α × β),
      (ivs.foldl f acc).1.length ≤ acc.1.length + ivs.length := by
  intro ivs
  induction ivs with
  | nil =>
    intro acc
    simp
  | cons iv rest ih =>
    intro acc
    simp only [List.foldl_cons, List.length_cons]
    have h1 := hf acc iv
    have h2 := ih (f acc iv)
    omega

theorem invEnqueue_length_le (env : Env) (rejected : Finset Hash) (p : PeerId)
    (ivs : List InvVect) : (invEnqueue env rejected p ivs).1.length ≤ ivs.length := by
  unfold invEnqueue
  have hstep : ∀ (acc : List InvVect × List Action) (iv : InvVect),
      ((fun (acc : List InvVect × List Action) (iv : InvVect) =>
        match iv.type with
        | InvType.otherType => acc
        | _ =>
          let acts := acc.2 ++ [Action.addKnownInventory p iv]
          if ¬ haveInventory env iv then
            if iv.type = InvType.txType ∧ iv.hash ∈ rejected then (acc.1, acts)
            else (acc.1 ++ [iv], acts)
          else (acc.1, acts)) acc iv).1.length ≤ acc.1.length + 1 := by
    intro acc iv
    simp only []
    split
    · exact Nat.le_succ _
    · split
      · split
        · exact Nat.le_succ _
        · simp
      · exact Nat.le_succ _
  have := foldl_fst_length_le _ hstep ivs ([], [])
  simpa using this

theorem handleInvMsg_chr (env : Env) (ivs : List InvVect) (p : PeerId) (s : SMState)
    (st : PeerSyncState) (hlk : lookupA s.peerStates p = some st) :
    (handleInvMsg env ivs p s).1.rejectedTxns = s.rejectedTxns ∧
    (handleInvMsg env ivs p s).1.requestedBlocks = s.requestedBlocks ∧
    (handleInvMsg env ivs p s).1.syncPeer = s.syncPeer ∧
    (handleInvMsg env ivs p s).1.requestedTxns =
      (drainLoop env s.requestedBlocks p
        (st.requestQueue ++ (invEnqueue env s.rejectedTxns p ivs).1)
        ⟨s.requestedTxns, st.requestedTxns, [], 0, []⟩).2.requestedTxns ∧
    (handleInvMsg env ivs p s).1.peerStates = updateA s.peerStates p
      (fun ps => { ps with
        requestQueue := (drainLoop env s.requestedBlocks p
          (st.requestQueue ++ (invEnqueue env s.rejectedTxns p ivs).1)
          ⟨s.requestedTxns, st.requestedTxns, [], 0, []⟩).1
        requestedTxns := (drainLoop env s.requestedBlocks p
          (st.requestQueue ++ (invEnqueue env s.rejectedTxns p ivs).1)
          ⟨s.requestedTxns, st.requestedTxns, [], 0, []⟩).2.peerTxns }) := by
  simp only [handleInvMsg, hlk]
  repeat' split
  all_goals exact ⟨rfl, rfl, rfl, rfl, rfl⟩

/-- C9 (amended): handling the same Inv message twice in succession from the
same (known) peer leaves the sync-relevant state after the second invocation
identical to the state after the first — rejected_txns, global requested_txns
and requested_blocks, sync_peer, and every peer's request queue, per-peer
requested_txns and requested_blocks — **provided** the global requested_txns
index has room for the whole queue
(`requested_txns.card + requestQueue.length + invVects.length < maxInvPerMsg`).
At the 50000-entry cap the claim fails: `limitMap` can evict a hash that the
second run then re-requests, growing the per-peer set (see the
counterexample). -/
theorem C9_inv_idempotent_amended (env : Env) (ivs : List InvVect) (p : PeerId)
    (s : SMState) (st : PeerSyncState)
    (hlk : lookupA s.peerStates p = some st)
    (hroom : s.requestedTxns.card + st.requestQueue.length + ivs.length < maxInvPerMsg) :
    ((handleInvMsg env ivs p (handleInvMsg env ivs p s).1).1.rejectedTxns =
      (handleInvMsg env ivs p s).1.rejectedTxns) ∧
    ((handleInvMsg env ivs p (handleInvMsg env ivs p s).1).1.requestedTxns =
      (handleInvMsg env ivs p s).1.requestedTxns) ∧
    ((handleInvMsg env ivs p (handleInvMsg env ivs p s).1).1.requestedBlocks =
      (handleInvMsg env ivs p s).1.requestedBlocks) ∧
    ((handleInvMsg env ivs p (handleInvMsg env ivs p s).1).1.syncPeer =
      (handleInvMsg env ivs p s).1.syncPeer) ∧
    (∀ q, (lookupA (handleInvMsg env ivs p (handleInvMsg env ivs p s).1).1.peerStates q).map
        (fun ps => (ps.requestQueue, ps.requestedTxns, ps.requestedBlocks)) =
      (lookupA (handleInvMsg env ivs p s).1.peerStates q).map
        (fun ps => (ps.requestQueue, ps.requestedTxns, ps.requestedBlocks))) := by
  obtain ⟨c1, c2, c3, c4, c5⟩ := handleInvMsg_chr env ivs p s st hlk
  have henq := invEnqueue_length_le env s.rejectedTxns p ivs
  have hq1 : s.requestedTxns.card +
      (st.requestQueue ++ (invEnqueue env s.rejectedTxns p ivs).1).length <
      maxRequestedTxns := by
    have hmm : maxRequestedTxns = maxInvPerMsg := rfl
    simp only [List.length_append]
    omega
  have hq2 : (0 : Nat) +
      (st.requestQueue ++ (invEnqueue env s.rejectedTxns p ivs).1).length <
      maxInvPerMsg := by
    simp only [List.length_append]
    omega
  obtain ⟨d1, d2, d3⟩ := drainLoop_nofull env s.requestedBlocks p
    (st.requestQueue ++ (invEnqueue env s.rejectedTxns p ivs).1)
    ⟨s.requestedTxns, st.requestedTxns, [], 0, []⟩ hq1 hq2
  have hlk1 : lookupA (handleInvMsg env ivs p s).1.peerStates p =
      some { st with
        requestQueue := []
        requestedTxns := (drainLoop env s.requestedBlocks p
          (st.requestQueue ++ (invEnqueue env s.rejectedTxns p ivs).1)
          ⟨s.requestedTxns, st.requestedTxns, [], 0, []⟩).2.peerTxns } := by
    rw [c5, lookupA_updateA, if_pos rfl, hlk]
    simp only [Option.map_some']
    rw [d1]
  obtain ⟨f1, f2, f3, f4, f5⟩ := handleInvMsg_chr env ivs p (handleInvMsg env ivs p s).1
    { st with
      requestQueue := []
      requestedTxns := (drainLoop env s.requestedBlocks p
        (st.requestQueue ++ (invEnqueue env s.rejectedTxns p ivs).1)
        ⟨s.requestedTxns, st.requestedTxns, [], 0, []⟩).2.peerTxns } hlk1
  have hdr2 : drainLoop env (handleInvMsg env ivs p s).1.requestedBlocks p
      (({ st with
          requestQueue := []
          requestedTxns := (drainLoop env s.requestedBlocks p
            (st.requestQueue ++ (invEnqueue env s.rejectedTxns p ivs).1)
            ⟨s.requestedTxns, st.requestedTxns, [], 0, []⟩).2.peerTxns } :
            PeerSyncState).requestQueue ++
        (invEnqueue env (handleInvMsg env ivs p s).1.rejectedTxns p ivs).1)
      ⟨(handleInvMsg env ivs p s).1.requestedTxns,
        ({ st with
          requestQueue := []
          requestedTxns := (drainLoop env s.requestedBlocks p
            (st.requestQueue ++ (invEnqueue env s.rejectedTxns p ivs).1)
            ⟨s.requestedTxns, st.requestedTxns, [], 0, []⟩).2.peerTxns } :
            PeerSyncState).requestedTxns, [], 0, []⟩ =
      drainLoop env (handleInvMsg env ivs p s).1.requestedBlocks p
        ([] ++ (invEnqueue env s.rejectedTxns p ivs).1)
        ⟨(drainLoop env s.requestedBlocks p
            (st.requestQueue ++ (invEnqueue env s.rejectedTxns p ivs).1)
            ⟨s.requestedTxns, st.requestedTxns, [], 0, []⟩).2.requestedTxns,
          (drainLoop env s.requestedBlocks p
            (st.requestQueue ++ (invEnqueue env s.rejectedTxns p ivs).1)
            ⟨s.requestedTxns, st.requestedTxns, [], 0, []⟩).2.peerTxns, [], 0, []⟩ := by
    rw [c1, c4]
  rw [hdr2] at f4 f5
  have hall : ∀ iv ∈ [] ++ (invEnqueue env s.rejectedTxns p ivs).1,
      iv.type = InvType.txType →
      iv.hash ∈ (drainLoop env s.requestedBlocks p
        (st.requestQueue ++ (invEnqueue env s.rejectedTxns p ivs).1)
        ⟨s.requestedTxns, st.requestedTxns, [], 0, []⟩).2.requestedTxns := by
    intro iv hiv hty
    have hiv2 : iv ∈ st.requestQueue ++ (invEnqueue env s.rejectedTxns p ivs).1 :=
      List.mem_append_right _ (by simpa using hiv)
    exact d3 iv hiv2 hty
  obtain ⟨g1, g2, g3, g4⟩ := drainLoop_allpresent env
    (handleInvMsg env ivs p s).1.requestedBlocks p
    ([] ++ (invEnqueue env s.rejectedTxns p ivs).1)
    ⟨(drainLoop env s.requestedBlocks p
        (st.requestQueue ++ (invEnqueue env s.rejectedTxns p ivs).1)
        ⟨s.requestedTxns, st.requestedTxns, [], 0, []⟩).2.requestedTxns,
      (drainLoop env s.requestedBlocks p
        (st.requestQueue ++ (invEnqueue env s.rejectedTxns p ivs).1)
        ⟨s.requestedTxns, st.requestedTxns, [], 0, []⟩).2.peerTxns, [], 0, []⟩
    hall (show (0 : Nat) < maxInvPerMsg by decide)
  refine ⟨f1, ?_, f2, f3, ?_⟩
  · rw [f4, g2, c4]
  · intro q
    rw [f5, lookupA_updateA]
    by_cases hq : q = p
    · rw [if_pos hq, hq, hlk1]
      simp only [Option.map_some']
      rw [g1, g3]
    · rw [if_neg hq]

/-- State for the C9 witness: one known peer, empty request state. -/
def sC9w : SMState :=
  { sEmpty with peerStates := [(1, PeerSyncState.mkNew true)] }

/-- Witness for the amended C9 theorem at a concrete input. -/
theorem C9_inv_idempotent_amended_witness :
    (handleInvMsg envW [⟨InvType.txType, 7⟩] 1
        (handleInvMsg envW [⟨InvType.txType, 7⟩] 1 sC9w).1).1.requestedTxns =
      (handleInvMsg envW [⟨InvType.txType, 7⟩] 1 sC9w).1.requestedTxns :=
  (C9_inv_idempotent_amended envW [⟨InvType.txType, 7⟩] 1 sC9w
    (PeerSyncState.mkNew true) rfl (by decide)).2.1

/-- The 49998-hash block of the C9 counterexample's requested_txns index. -/
def icoC9 : Finset Hash := Finset.Ico 10 50008

/-- The Inv message of the C9 counterexample: two tx announcements. -/
def ivsC9 : List InvVect := [⟨InvType.txType, 5⟩, ⟨InvType.txType, 60000⟩]

/-- State for the C9 counterexample: the global requested_txns index holds
49999 hashes including hash 5, one hash short of the 50000 cap. -/
def sC9x : SMState :=
  { sEmpty with
    requestedTxns := insert 5 icoC9
    peerStates := [(1, PeerSyncState.mkNew true)] }

theorem icoC9_bounds (b : Nat) (hb : b ∈ icoC9) : 10 ≤ b ∧ b < 50008 := by
  simp only [icoC9, Finset.mem_Ico] at hb
  exact hb

theorem icoC9_no5 : (5 : Nat) ∉ icoC9 := by
  intro hc
  have := icoC9_bounds 5 hc
  omega

theorem icoC9_no6 : (60000 : Nat) ∉ icoC9 := by
  intro hc
  have := icoC9_bounds 60000 hc
  omega

theorem icoC9_card : icoC9.card = 49998 := by
  simp [icoC9]

theorem notmem6C9 : (60000 : Nat) ∉ insert 5 icoC9 := by
  intro hc
  rcases Finset.mem_insert.mp hc with he | hc2
  · omega
  · have := icoC9_bounds 60000 hc2
    omega

theorem notmem5C9 : (5 : Nat) ∉ insert 60000 icoC9 := by
  intro hc
  rcases Finset.mem_insert.mp hc with he | hc2
  · omega
  · have := icoC9_bounds 5 hc2
    omega

theorem limitMapC9a :
    limitMap (insert 60000 (insert 5 icoC9)) maxRequestedTxns = insert 60000 icoC9 := by
  have hmin : (insert 60000 (insert 5 icoC9)).min = some 5 := by
    apply finset_min_eq _ 5 (Finset.mem_insert_of_mem (Finset.mem_insert_self 5 icoC9))
    intro b hb
    rcases Finset.mem_insert.mp hb with he | hb2
    · omega
    · rcases Finset.mem_insert.mp hb2 with he2 | hb3
      · omega
      · have := icoC9_bounds b hb3
        omega
  have hcard : (insert 60000 (insert 5 icoC9)).card = 50000 := by
    rw [Finset.card_insert_of_not_mem notmem6C9,
      Finset.card_insert_of_not_mem icoC9_no5, icoC9_card]
  unfold limitMap
  rw [if_pos (by rw [hcard]; decide), hmin]
  show (insert 60000 (insert 5 icoC9)).erase 5 = insert 60000 icoC9
  rw [Finset.erase_insert_of_ne (show (60000 : Nat) ≠ 5 by norm_num),
    Finset.erase_insert icoC9_no5]

theorem limitMapC9b :
    limitMap (insert 5 (insert 60000 icoC9)) maxRequestedTxns = insert 60000 icoC9 := by
  have hmin : (insert 5 (insert 60000 icoC9)).min = some 5 := by
    apply finset_min_eq _ 5 (Finset.mem_insert_self 5 _)
    intro b hb
    rcases Finset.mem_insert.mp hb with he | hb2
    · omega
    · rcases Finset.mem_insert.mp hb2 with he2 | hb3
      · omega
      · have := icoC9_bounds b hb3
        omega
  have hcard : (insert 5 (insert 60000 icoC9)).card = 50000 := by
    rw [Finset.card_insert_of_not_mem notmem5C9,
      Finset.card_insert_of_not_mem icoC9_no6, icoC9_card]
  unfold limitMap
  rw [if_pos (by rw [hcard]; decide), hmin]
  show (insert 5 (insert 60000 icoC9)).erase 5 = insert 60000 icoC9
  rw [Finset.erase_insert notmem5C9]

theorem drainLoop_cons_tx_skip (env : Env) (rb : Hash → Option PeerId) (p : PeerId)
    (h : Hash) (rest : List InvVect) (acc : DrainAcc)
    (hmem : h ∈ acc.requestedTxns) (hnr : acc.numRequested < maxInvPerMsg) :
    drainLoop env rb p (⟨InvType.txType, h⟩ :: rest) acc =
      drainLoop env rb p rest acc := by
  simp only [drainLoop]
  rw [if_neg (not_not_intro hmem), if_neg (show ¬ acc.numRequested ≥ maxInvPerMsg by omega)]

theorem drainLoop_cons_tx_take (env : Env) (rb : Hash → Option PeerId) (p : PeerId)
    (h : Hash) (rest : List InvVect) (acc : DrainAcc)
    (hmem : h ∉ acc.requestedTxns) (hnr : acc.numRequested + 1 < maxInvPerMsg) :
    drainLoop env rb p (⟨InvType.txType, h⟩ :: rest) acc =
      drainLoop env rb p rest { acc with
        requestedTxns := limitMap (insert h acc.requestedTxns) maxRequestedTxns
        peerTxns := insert h acc.peerTxns
        gdmsg := acc.gdmsg ++ [⟨InvType.txType, h⟩]
        numRequested := acc.numRequested + 1 } := by
  simp only [drainLoop]
  rw [if_pos hmem, if_neg (show ¬ ({ acc with
    requestedTxns := limitMap (insert h acc.requestedTxns) maxRequestedTxns
    peerTxns := insert h acc.peerTxns
    gdmsg := acc.gdmsg ++ [⟨InvType.txType, h⟩]
    numRequested := acc.numRequested + 1 } : DrainAcc).numRequested ≥ maxInvPerMsg from by
      show ¬ acc.numRequested + 1 ≥ maxInvPerMsg
      omega)]

theorem drainC9a : drainLoop envW sC9x.requestedBlocks 1 ivsC9
    ⟨sC9x.requestedTxns, (PeerSyncState.mkNew true).requestedTxns, [], 0, []⟩ =
    ([], ⟨insert 60000 icoC9, insert 60000 ∅, [⟨InvType.txType, 60000⟩], 1, []⟩) := by
  show drainLoop envW sC9x.requestedBlocks 1
    [⟨InvType.txType, 5⟩, ⟨InvType.txType, 60000⟩] ⟨insert 5 icoC9, ∅, [], 0, []⟩ = _
  rw [drainLoop_cons_tx_skip envW sC9x.requestedBlocks 1 5 _ _
    (Finset.mem_insert_self 5 icoC9) (show (0 : Nat) < maxInvPerMsg by decide)]
  rw [drainLoop_cons_tx_take envW sC9x.requestedBlocks 1 60000 [] _
    notmem6C9 (show (0 : Nat) + 1 < maxInvPerMsg by decide)]
  rw [limitMapC9a]
  simp [drainLoop]

theorem drainC9b : drainLoop envW sC9x.requestedBlocks 1 ivsC9
    ⟨insert 60000 icoC9, insert 60000 ∅, [], 0, []⟩ =
    ([], ⟨insert 60000 icoC9, insert 5 (insert 60000 ∅), [⟨InvType.txType, 5⟩], 1, []⟩) := by
  show drainLoop envW sC9x.requestedBlocks 1
    [⟨InvType.txType, 5⟩, ⟨InvType.txType, 60000⟩] ⟨insert 60000 icoC9, insert 60000 ∅, [], 0, []⟩ = _
  rw [drainLoop_cons_tx_take envW sC9x.requestedBlocks 1 5 _ _
    notmem5C9 (show (0 : Nat) + 1 < maxInvPerMsg by decide)]
  rw [limitMapC9b]
  rw [drainLoop_cons_tx_skip envW sC9x.requestedBlocks 1 60000 []
    _ (Finset.mem_insert_self 60000 icoC9)
    (show (0 : Nat) + 1 < maxInvPerMsg by decide)]
  simp [drainLoop]

/-- C9 counterexample: with the global requested_txns index one entry short
of the 50000 cap and already holding hash 5, an Inv announcing txs 5 and
60000 is handled twice.  The first run evicts hash 5 to make room for
60000; the second run therefore re-requests hash 5, and the peer's per-peer
requested_txns set after the second run ({5, 60000}) differs from the set
after the first ({60000}) — not a known-inventory cache update, so the
claimed idempotence fails. -/
theorem C9_counterexample :
    ¬ ((lookupA (handleInvMsg envW ivsC9 1
          (handleInvMsg envW ivsC9 1 sC9x).1).1.peerStates 1).map
        (fun ps => ps.requestedTxns) =
      (lookupA (handleInvMsg envW ivsC9 1 sC9x).1.peerStates 1).map
        (fun ps => ps.requestedTxns)) := by
  obtain ⟨c1x, c2x, c3x, c4x, c5x⟩ :=
    handleInvMsg_chr envW ivsC9 1 sC9x (PeerSyncState.mkNew true) rfl
  have hq1 : (PeerSyncState.mkNew true).requestQueue ++
      (invEnqueue envW sC9x.rejectedTxns 1 ivsC9).1 = ivsC9 := rfl
  rw [hq1] at c4x c5x
  rw [drainC9a] at c4x c5x
  simp only [] at c4x
  have hlk1x : lookupA (handleInvMsg envW ivsC9 1 sC9x).1.peerStates 1 =
      some { PeerSyncState.mkNew true with
        requestQueue := [], requestedTxns := insert 60000 ∅ } := by
    rw [c5x, lookupA_updateA, if_pos rfl]
    rfl
  obtain ⟨c1y, c2y, c3y, c4y, c5y⟩ :=
    handleInvMsg_chr envW ivsC9 1 (handleInvMsg envW ivsC9 1 sC9x).1
      { PeerSyncState.mkNew true with
        requestQueue := [], requestedTxns := insert 60000 ∅ } hlk1x
  have hq2 : ({ PeerSyncState.mkNew true with
      requestQueue := [], requestedTxns := insert 60000 ∅ } :
        PeerSyncState).requestQueue ++
      (invEnqueue envW (handleInvMsg envW ivsC9 1 sC9x).1.rejectedTxns 1 ivsC9).1 =
        ivsC9 := by
    rw [c1x]
    rfl
  rw [hq2, c2x, c4x] at c5y
  simp only [] at c5y
  rw [drainC9b] at c5y
  have hlk2x : lookupA (handleInvMsg envW ivsC9 1
      (handleInvMsg envW ivsC9 1 sC9x).1).1.peerStates 1 =
      some { PeerSyncState.mkNew true with
        requestQueue := [], requestedTxns := insert 5 (insert 60000 ∅) } := by
    rw [c5y, lookupA_updateA, if_pos rfl, hlk1x]
    rfl
  intro he
  rw [hlk2x, hlk1x] at he
  simp only [Option.map_some', Option.some.injEq] at he
  have h5in : (5 : Nat) ∈ insert 60000 (∅ : Finset Hash) :=
    he ▸ Finset.mem_insert_self 5 (insert 60000 ∅)
  exact absurd h5in (by decide)
end SyncManager
